import Mathlib

/-!
Verification of the exception-inheritance-tree program `exc_tree.py`.

The program discovers `Exception` subclasses, builds a parent/children map
spanning from `Exception` down through all ancestors, and renders the result
as a text tree.  We embed the pure core of the program shallowly: Python
classes become natural-number identifiers interpreted through an environment
`PyEnv` that supplies each class's method resolution order (`__mro__`), direct
bases (`__bases__`), defining module (`__module__`) and name (`__name__`).
Python `set` and `dict` values become lists and association lists whose order
models the iteration order; Python's stable `list.sort` becomes a stable
insertion sort (stable sorting under a total preorder is functionally
unique, so this is the same function).
-/

/-- The class environment: how the Python runtime answers the reflection
queries the program makes.  `objectId` is the class `object`, `excId` is the
class `Exception`. -/
structure PyEnv where
  mro : Nat → List Nat
  bases : Nat → List Nat
  module : Nat → String
  name : Nat → String
  objectId : Nat
  excId : Nat

/-- `issubclass(a, b)` for ordinary classes: `b ∈ a.__mro__`. -/
def issubclass (env : PyEnv) (a b : Nat) : Bool :=
  decide (b ∈ env.mro a)

/-- `get_display_name`: builtins drop the module, others show the dotted path. -/
def get_display_name (env : PyEnv) (cls : Nat) : String :=
  if env.module cls = "builtins" then env.name cls
  else env.module cls ++ "." ++ env.name cls

/-- `set.add`: a set modelled as a duplicate-free list in insertion order. -/
def addNode (nodes : List Nat) (x : Nat) : List Nat :=
  if x ∈ nodes then nodes else nodes ++ [x]

/-- The inner loop of `_gather_nodes` over one class's `__mro__`:
`break` at `object`, `continue` past non-`Exception` ancestors, `add` the rest. -/
def gatherWalk (env : PyEnv) : List Nat → List Nat → List Nat
  | [], nodes => nodes
  | a :: rest, nodes =>
    if a = env.objectId then nodes
    else if issubclass env a env.excId then gatherWalk env rest (addNode nodes a)
    else gatherWalk env rest nodes

/-- `_gather_nodes(exc_classes, root)` with `root = Exception`. -/
def gather_nodes (env : PyEnv) (exc_classes : List Nat) : List Nat :=
  exc_classes.foldl (fun nodes cls => gatherWalk env (env.mro cls) nodes) [env.excId]

/-- The parent search of `_build_parent_map`: first element of `cls.__mro__[1:]`
that is in `nodes`. -/
def findParent (env : PyEnv) (nodes : List Nat) (cls : Nat) : Option Nat :=
  (env.mro cls).tail.find? (fun anc => decide (anc ∈ nodes))

/-- `_build_parent_map(nodes, root)`: an insertion-ordered dict as an
association list. -/
def build_parent_map (env : PyEnv) (nodes : List Nat) (root : Nat) : List (Nat × Nat) :=
  nodes.foldl
    (fun pm cls =>
      if cls = root then pm
      else
        match findParent env nodes cls with
        | some p => pm ++ [(cls, p)]
        | none => pm)
    []

/-- `children.setdefault(parent, []).append(child)` on an association list. -/
def setdefaultAppend (m : List (Nat × List Nat)) (k : Nat) (v : Nat) : List (Nat × List Nat) :=
  match m with
  | [] => [(k, [v])]
  | (k', l) :: rest =>
    if k' = k then (k', l ++ [v]) :: rest else (k', l) :: setdefaultAppend rest k v

/-- `_invert_parent_map`. -/
def invert_parent_map (pm : List (Nat × Nat)) : List (Nat × List Nat) :=
  pm.foldl (fun m cp => setdefaultAppend m cp.2 cp.1) []

/-- `children.get(k)`: first (here: unique) binding of `k`. -/
def dictGet (m : List (Nat × List Nat)) (k : Nat) : Option (List Nat) :=
  match m with
  | [] => none
  | (k', l) :: rest => if k' = k then some l else dictGet rest k

/-- `children.get(k, [])`. -/
def getD (m : List (Nat × List Nat)) (k : Nat) : List Nat :=
  (dictGet m k).getD []

/-- Lexicographic comparison of code-point sequences: Python's `<=` on `str`. -/
def lexLe : List Char → List Char → Bool
  | [], _ => true
  | _ :: _, [] => false
  | a :: as, b :: bs =>
    if a.toNat < b.toNat then true
    else if b.toNat < a.toNat then false
    else lexLe as bs

/-- The sort key of `_sort_children`: `get_display_name(c).lower()`, as its
code-point sequence. -/
def sortKey (env : PyEnv) (c : Nat) : List Char :=
  (get_display_name env c).data.map Char.toLower

/-- The ordering `lst.sort(key=...)` sorts by. -/
def keyOrder (env : PyEnv) : Nat → Nat → Prop :=
  fun a b => lexLe (sortKey env a) (sortKey env b) = true

instance (env : PyEnv) : DecidableRel (keyOrder env) :=
  fun a b => inferInstanceAs (Decidable (_ = true))

/-- `_sort_children`: stable-sort every value list by the lower-cased display
name (keys and their order unchanged). -/
def sort_children (env : PyEnv) (m : List (Nat × List Nat)) : List (Nat × List Nat) :=
  m.map (fun kl => (kl.1, List.insertionSort (keyOrder env) kl.2))

/-- `_detect_multi_parents`. -/
def detect_multi_parents (env : PyEnv) (nodes : List Nat) : List Nat :=
  nodes.filter
    (fun cls =>
      decide (cls ≠ env.excId) &&
      decide (1 < ((env.bases cls).filter (fun b => decide (b ∈ nodes))).length))

/-- `_duplicate_multi_parents`. -/
def duplicate_multi_parents (env : PyEnv) (children : List (Nat × List Nat))
    (multi_parents nodes : List Nat) : List (Nat × List Nat) :=
  multi_parents.foldl
    (fun ch cls =>
      ((env.bases cls).filter (fun b => decide (b ∈ nodes))).foldl
        (fun ch base =>
          if cls ∈ getD ch base then ch else setdefaultAppend ch base cls)
        ch)
    children

/-- `build_inheritance_tree(exc_classes, all_paths)`. -/
def build_inheritance_tree (env : PyEnv) (exc_classes : List Nat) (all_paths : Bool) :
    Nat × List (Nat × List Nat) × List Nat :=
  let root := env.excId
  let nodes := gather_nodes env exc_classes
  let parent_map := build_parent_map env nodes root
  let children := invert_parent_map parent_map
  let children := sort_children env children
  let multi_parents := detect_multi_parents env nodes
  let children :=
    if all_paths then sort_children env (duplicate_multi_parents env children multi_parents nodes)
    else children
  (root, children, multi_parents)

/-- The text of one node line: indent, branch connector, display name, and the
multi-parent marker `" *"` when the node is in `multi_parents`. -/
def childLine (env : PyEnv) (multi_parents : List Nat) (indent branch : String)
    (child : Nat) : String :=
  indent ++ branch ++ get_display_name env child ++
    (if child ∈ multi_parents then " *" else "")

/-- One level of the `_print_subtree` loop over the children of one node, as
the list of printed lines.  `prev` is the previous sibling (`none` at the
first child); `recurse` renders a child's subtree. -/
def renderLevel (env : PyEnv) (cm : List (Nat × List Nat)) (multi_parents : List Nat)
    (compact : Bool) (recurse : Nat → String → List String) :
    List Nat → Option Nat → String → List String
  | [], _, _ => []
  | child :: rest, prev, indent =>
    let sep : List String :=
      if compact then []
      else
        match prev with
        | none => []
        | some p => if getD cm p = [] then [] else [indent ++ "|"]
    let last := rest.isEmpty
    let branch := if last then "└── " else "├── "
    let line := childLine env multi_parents indent branch child
    let sub : List String :=
      if getD cm child = [] then []
      else recurse child (indent ++ (if last then "    " else "│   "))
    sep ++ line ::
      (sub ++ renderLevel env cm multi_parents compact recurse rest (some child) indent)

/-- The recursion of `_print_subtree`, depth-bounded by `fuel` (the Python
recursion has no such bound; every statement below either holds for every
`fuel` or exhibits a sufficient one). -/
def renderList (env : PyEnv) (cm : List (Nat × List Nat)) (multi_parents : List Nat)
    (compact : Bool) : Nat → List Nat → Option Nat → String → List String
  | 0 => renderLevel env cm multi_parents compact (fun _ _ => [])
  | f + 1 =>
    renderLevel env cm multi_parents compact
      (fun child ind => renderList env cm multi_parents compact f (getD cm child) none ind)

/-- `_print_subtree(node, ...)`: render the descendants of `node`. -/
def print_subtree (env : PyEnv) (cm : List (Nat × List Nat)) (multi_parents : List Nat)
    (compact : Bool) (fuel : Nat) (node : Nat) (indent : String) : List String :=
  renderList env cm multi_parents compact fuel (getD cm node) none indent

/-- The root-level loop of `print_tree`: a separator `"|"` before every root
child (non-compact mode), then the child's line and its subtree. -/
def renderRoot (env : PyEnv) (cm : List (Nat × List Nat)) (multi_parents : List Nat)
    (compact : Bool) (fuel : Nat) : List Nat → List String
  | [] => []
  | child :: rest =>
    (if compact then [] else ["|"]) ++
    childLine env multi_parents "" (if rest.isEmpty then "└── " else "├── ") child ::
    (print_subtree env cm multi_parents compact fuel child
        (if rest.isEmpty then "    " else "│   ") ++
      renderRoot env cm multi_parents compact fuel rest)

/-- `print_tree(root, children_map, multi_parents, compact)` as its list of
output lines. -/
def print_tree (env : PyEnv) (root : Nat) (cm : List (Nat × List Nat))
    (multi_parents : List Nat) (compact : Bool) (fuel : Nat) : List String :=
  get_display_name env root :: renderRoot env cm multi_parents compact fuel (getD cm root)

/-- The whole pure pipeline: build the tree from the discovered classes, then
print it. -/
def runProgram (env : PyEnv) (exc_classes : List Nat) (all_paths compact : Bool)
    (fuel : Nat) : List String :=
  match build_inheritance_tree env exc_classes all_paths with
  | (root, cm, multi_parents) => print_tree env root cm multi_parents compact fuel

/-- Outcome of one process run: exit code, stderr lines, stdout lines. -/
structure RunResult where
  exitCode : Nat
  stderrLines : List String
  stdout : List String
deriving DecidableEq, Repr

/-- `main` with the import effect made explicit: `importResult = none` models
`importlib.import_module` raising `ImportError` (with message `errText`);
`some excs` models a successful discovery returning `excs`.  On import failure
`find_exceptions_recursive` prints to stderr and exits with code 10; on an
empty discovery `main` prints to stderr and exits with code 1; otherwise the
tree is printed and the process exits normally (code 0). -/
def mainRun (env : PyEnv) (moduleArg : String) (importResult : Option (List Nat))
    (errText : String) (all_paths compact : Bool) (fuel : Nat) : RunResult :=
  match importResult with
  | none =>
    { exitCode := 10
      stderrLines := ["Error: could not import '" ++ moduleArg ++ "': " ++ errText]
      stdout := [] }
  | some excs =>
    if excs = [] then
      { exitCode := 1
        stderrLines := ["No Exception subclasses found in '" ++ moduleArg ++ "'."]
        stdout := [] }
    else
      { exitCode := 0
        stderrLines := []
        stdout := runProgram env excs all_paths compact fuel }

/-! ### Order lemmas for the sort key -/

theorem lexLe_refl (x : List Char) : lexLe x x = true := by
  induction x with
  | nil => rfl
  | cons a as ih => simp [lexLe, ih]

theorem lexLe_total (x y : List Char) : lexLe x y = true ∨ lexLe y x = true := by
  induction x generalizing y with
  | nil => left; rfl
  | cons a as ih =>
    cases y with
    | nil => right; rfl
    | cons b bs =>
      by_cases h1 : a.toNat < b.toNat
      · left; simp [lexLe, h1]
      · by_cases h2 : b.toNat < a.toNat
        · right; simp [lexLe, h2]
        · rcases ih bs with h | h
          · left; simp [lexLe, h1, h2, h]
          · right; simp [lexLe, h1, h2, h]

theorem char_toNat_inj {a b : Char} (h : a.toNat = b.toNat) : a = b :=
  Char.ext (UInt32.ext h)

theorem lexLe_antisymm {x y : List Char} (hxy : lexLe x y = true)
    (hyx : lexLe y x = true) : x = y := by
  induction x generalizing y with
  | nil => cases y with
    | nil => rfl
    | cons b bs => simp [lexLe] at hyx
  | cons a as ih =>
    cases y with
    | nil => simp [lexLe] at hxy
    | cons b bs =>
      simp only [lexLe] at hxy hyx
      split_ifs at hxy hyx with h1 h2 h3 h4 <;> try omega
      have hab : a = b := char_toNat_inj (by omega)
      rw [hab, ih hxy hyx]

theorem lexLe_trans {x y z : List Char} (hxy : lexLe x y = true)
    (hyz : lexLe y z = true) : lexLe x z = true := by
  induction x generalizing y z with
  | nil => rfl
  | cons a as ih =>
    cases y with
    | nil => simp [lexLe] at hxy
    | cons b bs =>
      cases z with
      | nil => simp [lexLe] at hyz
      | cons c cs =>
        simp only [lexLe] at hxy hyz ⊢
        split_ifs at hxy hyz ⊢ with h1 h2 h3 h4 h5 h6 <;>
          first
          | rfl
          | omega
          | (exact ih hxy hyz)

instance keyOrderTotal (env : PyEnv) : IsTotal Nat (keyOrder env) :=
  ⟨fun a b => lexLe_total (sortKey env a) (sortKey env b)⟩

instance keyOrderTrans (env : PyEnv) : IsTrans Nat (keyOrder env) :=
  ⟨fun _ _ _ => lexLe_trans⟩

theorem keyOrder_antisymm_key {env : PyEnv} {a b : Nat} (h1 : keyOrder env a b)
    (h2 : keyOrder env b a) : sortKey env a = sortKey env b :=
  lexLe_antisymm h1 h2

/-! ### The gathered node set -/

/-- What one `_gather_nodes` chain walk adds: the chain up to (excluding) the
first occurrence of `object`, filtered to `Exception` subclasses. -/
def chainAdds (env : PyEnv) (chain : List Nat) : List Nat :=
  (chain.takeWhile (fun a => decide (a ≠ env.objectId))).filter
    (fun a => issubclass env a env.excId)

theorem mem_addNode {nodes : List Nat} {x y : Nat} :
    x ∈ addNode nodes y ↔ x ∈ nodes ∨ x = y := by
  unfold addNode
  split_ifs with h
  · constructor
    · exact fun hx => Or.inl hx
    · rintro (hx | rfl) <;> [exact hx; exact h]
  · simp

theorem nodup_addNode {nodes : List Nat} {y : Nat} (h : nodes.Nodup) :
    (addNode nodes y).Nodup := by
  unfold addNode
  split_ifs with hy
  · exact h
  · simpa [List.nodup_append] using ⟨h, hy⟩

theorem mem_gatherWalk {env : PyEnv} {chain nodes : List Nat} {x : Nat} :
    x ∈ gatherWalk env chain nodes ↔ x ∈ nodes ∨ x ∈ chainAdds env chain := by
  induction chain generalizing nodes with
  | nil => simp [gatherWalk, chainAdds]
  | cons a rest ih =>
    unfold gatherWalk chainAdds
    split_ifs with h1 h2
    · simp [List.takeWhile_cons, h1]
    · rw [ih]
      simp only [chainAdds, List.takeWhile_cons, h1, decide_not]
      simp [mem_addNode, h2, List.filter_cons]
      tauto
    · rw [ih]
      simp only [chainAdds, List.takeWhile_cons, h1, decide_not]
      simp [List.filter_cons, h2]

theorem nodup_gatherWalk {env : PyEnv} {chain nodes : List Nat}
    (h : nodes.Nodup) : (gatherWalk env chain nodes).Nodup := by
  induction chain generalizing nodes with
  | nil => exact h
  | cons a rest ih =>
    unfold gatherWalk
    split_ifs <;> first | exact h | exact ih (nodup_addNode h) | exact ih h

theorem mem_gather_foldl {env : PyEnv} {l acc : List Nat} {x : Nat} :
    x ∈ l.foldl (fun nodes cls => gatherWalk env (env.mro cls) nodes) acc ↔
      x ∈ acc ∨ ∃ c ∈ l, x ∈ chainAdds env (env.mro c) := by
  induction l generalizing acc with
  | nil => simp
  | cons c rest ih =>
    simp only [List.foldl_cons, ih, mem_gatherWalk, List.mem_cons]
    constructor
    · rintro ((h | h) | ⟨d, hd, hx⟩)
      · exact Or.inl h
      · exact Or.inr ⟨c, Or.inl rfl, h⟩
      · exact Or.inr ⟨d, Or.inr hd, hx⟩
    · rintro (h | ⟨d, rfl | hd, hx⟩)
      · exact Or.inl (Or.inl h)
      · exact Or.inl (Or.inr hx)
      · exact Or.inr ⟨d, hd, hx⟩

theorem mem_gather_nodes {env : PyEnv} {l : List Nat} {x : Nat} :
    x ∈ gather_nodes env l ↔
      x = env.excId ∨ ∃ c ∈ l, x ∈ chainAdds env (env.mro c) := by
  unfold gather_nodes
  rw [mem_gather_foldl]
  simp

theorem nodup_gather_nodes (env : PyEnv) (l : List Nat) :
    (gather_nodes env l).Nodup := by
  unfold gather_nodes
  have : ∀ (m : List Nat) (acc : List Nat), acc.Nodup →
      (m.foldl (fun nodes cls => gatherWalk env (env.mro cls) nodes) acc).Nodup := by
    intro m
    induction m with
    | nil => exact fun acc h => h
    | cons c rest ih => exact fun acc h => ih _ (nodup_gatherWalk h)
  exact this l [env.excId] (List.nodup_singleton _)

theorem excId_mem_gather (env : PyEnv) (l : List Nat) :
    env.excId ∈ gather_nodes env l :=
  mem_gather_nodes.mpr (Or.inl rfl)

theorem gather_subclass {env : PyEnv} {l : List Nat} {x : Nat}
    (hx : x ∈ gather_nodes env l) (hne : x ≠ env.excId) :
    issubclass env x env.excId = true ∧ x ≠ env.objectId := by
  rcases mem_gather_nodes.mp hx with h | ⟨c, _, hc⟩
  · exact absurd h hne
  · unfold chainAdds at hc
    rw [List.mem_filter] at hc
    refine ⟨hc.2, ?_⟩
    have := List.mem_takeWhile_imp hc.1
    simpa using this

/-! ### Parent map -/

/-- What `_build_parent_map` records for one class. -/
def pmEntry (env : PyEnv) (nodes : List Nat) (root cls : Nat) : Option (Nat × Nat) :=
  if cls = root then none
  else (findParent env nodes cls).map (fun p => (cls, p))

theorem build_parent_map_eq (env : PyEnv) (nodes : List Nat) (root : Nat) :
    build_parent_map env nodes root = nodes.filterMap (pmEntry env nodes root) := by
  unfold build_parent_map
  have key : ∀ (m : List Nat) (acc : List (Nat × Nat)),
      (m.foldl
        (fun pm cls =>
          if cls = root then pm
          else
            match findParent env nodes cls with
            | some p => pm ++ [(cls, p)]
            | none => pm)
        acc) = acc ++ m.filterMap (pmEntry env nodes root) := by
    intro m
    induction m with
    | nil => simp
    | cons c rest ih =>
      intro acc
      simp only [List.foldl_cons, List.filterMap_cons, ih]
      unfold pmEntry
      split_ifs with h
      · rfl
      · cases hf : findParent env nodes c <;> simp
  simpa using key nodes []

theorem mem_build_parent_map {env : PyEnv} {nodes : List Nat} {root c p : Nat} :
    (c, p) ∈ build_parent_map env nodes root ↔
      c ∈ nodes ∧ c ≠ root ∧ findParent env nodes c = some p := by
  rw [build_parent_map_eq, List.mem_filterMap]
  constructor
  · rintro ⟨a, ha, hf⟩
    unfold pmEntry at hf
    split_ifs at hf with h
    rcases Option.map_eq_some'.mp hf with ⟨q, hq, hpair⟩
    simp only [Prod.mk.injEq] at hpair
    obtain ⟨rfl, rfl⟩ := hpair
    exact ⟨ha, h, hq⟩
  · rintro ⟨hc, hne, hf⟩
    exact ⟨c, hc, by unfold pmEntry; rw [if_neg hne, hf]; rfl⟩

theorem filterMap_fst_sublist {f : Nat → Option (Nat × Nat)}
    (hf : ∀ c cp, f c = some cp → cp.1 = c) :
    ∀ l : List Nat, ((l.filterMap f).map Prod.fst).Sublist l := by
  intro l
  induction l with
  | nil => simp
  | cons c rest ih =>
    rw [List.filterMap_cons]
    cases h : f c with
    | none => exact ih.cons c
    | some cp =>
      rw [List.map_cons, hf c cp h]
      exact ih.cons₂ c

theorem parent_map_keys_sublist (env : PyEnv) (nodes : List Nat) (root : Nat) :
    ((build_parent_map env nodes root).map Prod.fst).Sublist nodes := by
  rw [build_parent_map_eq]
  apply filterMap_fst_sublist
  intro c cp h
  unfold pmEntry at h
  split_ifs at h
  rcases Option.map_eq_some'.mp h with ⟨q, _, hpair⟩
  rw [← hpair]

theorem parent_map_keys_nodup {env : PyEnv} {nodes : List Nat} {root : Nat}
    (h : nodes.Nodup) : ((build_parent_map env nodes root).map Prod.fst).Nodup :=
  (parent_map_keys_sublist env nodes root).nodup h

/-! ### Dictionary operations -/

theorem dictGet_setdefaultAppend (m : List (Nat × List Nat)) (k v : Nat) (k' : Nat) :
    dictGet (setdefaultAppend m k v) k' =
      if k = k' then some (getD m k' ++ [v]) else dictGet m k' := by
  induction m with
  | nil =>
    by_cases h : k = k' <;> simp [setdefaultAppend, dictGet, getD, h]
  | cons kl rest ih =>
    obtain ⟨k0, l0⟩ := kl
    unfold setdefaultAppend
    by_cases h0 : k0 = k
    · subst h0
      by_cases h : k0 = k' <;> simp [dictGet, getD, h]
    · by_cases h : k0 = k'
      · subst h
        have hk : ¬ k = k0 := fun hh => h0 hh.symm
        simp [dictGet, getD, hk, h0, ih]
      · simp [dictGet, h, h0, ih, getD]

theorem getD_setdefaultAppend (m : List (Nat × List Nat)) (k v : Nat) (k' : Nat) :
    getD (setdefaultAppend m k v) k' = if k = k' then getD m k' ++ [v] else getD m k' := by
  unfold getD
  rw [dictGet_setdefaultAppend]
  split_ifs <;> simp [getD]

theorem dictGet_isSome_setdefaultAppend {m : List (Nat × List Nat)} {k v k' : Nat}
    (h : (dictGet m k').isSome) : (dictGet (setdefaultAppend m k v) k').isSome := by
  rw [dictGet_setdefaultAppend]
  split_ifs <;> simp_all

theorem getD_ne_nil_isSome {m : List (Nat × List Nat)} {k : Nat}
    (h : getD m k ≠ []) : (dictGet m k).isSome := by
  unfold getD at h
  cases hm : dictGet m k <;> simp_all

theorem getD_invert (pm : List (Nat × Nat)) (b : Nat) :
    getD (invert_parent_map pm) b = (pm.filter (fun cp => cp.2 = b)).map Prod.fst := by
  unfold invert_parent_map
  have key : ∀ (l : List (Nat × Nat)) (acc : List (Nat × List Nat)),
      getD (l.foldl (fun m cp => setdefaultAppend m cp.2 cp.1) acc) b =
        getD acc b ++ (l.filter (fun cp => cp.2 = b)).map Prod.fst := by
    intro l
    induction l with
    | nil => simp
    | cons cp rest ih =>
      intro acc
      simp only [List.foldl_cons, ih, getD_setdefaultAppend, List.filter_cons]
      split_ifs with h1 h2 h3 <;> simp_all
  rw [key pm []]
  simp [getD, dictGet]

theorem dictGet_sort_children (env : PyEnv) (m : List (Nat × List Nat)) (b : Nat) :
    dictGet (sort_children env m) b =
      (dictGet m b).map (List.insertionSort (keyOrder env)) := by
  induction m with
  | nil => simp [sort_children, dictGet]
  | cons kl rest ih =>
    obtain ⟨k0, l0⟩ := kl
    by_cases h : k0 = b <;> simp [sort_children, dictGet, h] <;>
      simpa [sort_children] using ih

theorem getD_sort_children (env : PyEnv) (m : List (Nat × List Nat)) (b : Nat) :
    getD (sort_children env m) b = List.insertionSort (keyOrder env) (getD m b) := by
  unfold getD
  rw [dictGet_sort_children]
  cases dictGet m b <;> simp [List.insertionSort]

/-! ### findParent -/

theorem findParent_mem {env : PyEnv} {nodes : List Nat} {cls p : Nat}
    (h : findParent env nodes cls = some p) :
    p ∈ nodes ∧ p ∈ (env.mro cls).tail := by
  refine ⟨?_, List.mem_of_find?_eq_some h⟩
  have := List.find?_some h
  simpa using this

theorem findParent_isSome {env : PyEnv} {l : List Nat} {cls : Nat}
    (hhead : (env.mro cls).head? = some cls)
    (hcls : cls ∈ gather_nodes env l) (hne : cls ≠ env.excId) :
    ∃ p, findParent env (gather_nodes env l) cls = some p := by
  have hsub : env.excId ∈ env.mro cls := by
    have := (gather_subclass hcls hne).1
    simpa [issubclass] using this
  obtain ⟨t, ht⟩ : ∃ t, env.mro cls = cls :: t := by
    cases hmro : env.mro cls with
    | nil => rw [hmro] at hhead; simp at hhead
    | cons a t =>
      rw [hmro] at hhead
      simp only [List.head?_cons, Option.some.injEq] at hhead
      exact ⟨t, by rw [hhead]⟩
  have hmem : env.excId ∈ (env.mro cls).tail := by
    rw [ht] at hsub ⊢
    rcases List.mem_cons.mp hsub with h | h
    · exact absurd h.symm hne
    · simpa using h
  have : (findParent env (gather_nodes env l) cls).isSome := by
    unfold findParent
    rw [List.find?_isSome]
    exact ⟨env.excId, hmem, by simpa using excId_mem_gather env l⟩
  exact Option.isSome_iff_exists.mp this

/-! ### The children map of `build_inheritance_tree` -/

/-- The children map before the duplication pass. -/
def childrenNoDup (env : PyEnv) (l : List Nat) : List (Nat × List Nat) :=
  sort_children env (invert_parent_map (build_parent_map env (gather_nodes env l) env.excId))

/-- The children map after the duplication pass. -/
def childrenDup (env : PyEnv) (l : List Nat) : List (Nat × List Nat) :=
  sort_children env
    (duplicate_multi_parents env (childrenNoDup env l)
      (detect_multi_parents env (gather_nodes env l)) (gather_nodes env l))

theorem build_eq (env : PyEnv) (l : List Nat) (ap : Bool) :
    build_inheritance_tree env l ap =
      (env.excId, if ap then childrenDup env l else childrenNoDup env l,
        detect_multi_parents env (gather_nodes env l)) := by
  unfold build_inheritance_tree childrenDup childrenNoDup
  cases ap <;> rfl

theorem mem_map_fst_filter_snd {pm : List (Nat × Nat)} {x b : Nat} :
    x ∈ (pm.filter (fun cp => cp.2 = b)).map Prod.fst ↔ (x, b) ∈ pm := by
  rw [List.mem_map]
  constructor
  · rintro ⟨cp, hcp, rfl⟩
    rw [List.mem_filter] at hcp
    have : cp = (cp.1, b) := by
      have h2 : cp.2 = b := by simpa using hcp.2
      exact Prod.ext rfl h2
    rw [← this]
    exact hcp.1
  · intro h
    exact ⟨(x, b), List.mem_filter.mpr ⟨h, by simp⟩, rfl⟩

theorem mem_childrenNoDup {env : PyEnv} {l : List Nat} {x b : Nat} :
    x ∈ getD (childrenNoDup env l) b ↔
      (x, b) ∈ build_parent_map env (gather_nodes env l) env.excId := by
  unfold childrenNoDup
  rw [getD_sort_children]
  rw [(List.perm_insertionSort (keyOrder env) _).mem_iff]
  rw [getD_invert]
  exact mem_map_fst_filter_snd

theorem nodup_getD_invert {env : PyEnv} {l : List Nat} {b : Nat} :
    (getD (invert_parent_map (build_parent_map env (gather_nodes env l) env.excId)) b).Nodup := by
  rw [getD_invert]
  have h1 : ((build_parent_map env (gather_nodes env l) env.excId).filter
      (fun cp => cp.2 = b)).Sublist (build_parent_map env (gather_nodes env l) env.excId) :=
    List.filter_sublist _
  have h2 := h1.map Prod.fst
  exact h2.nodup (parent_map_keys_nodup (nodup_gather_nodes env l))

theorem nodup_childrenNoDup {env : PyEnv} {l : List Nat} {b : Nat} :
    (getD (childrenNoDup env l) b).Nodup := by
  unfold childrenNoDup
  rw [getD_sort_children]
  exact (List.perm_insertionSort (keyOrder env) _).nodup_iff.mpr nodup_getD_invert

/-! ### The duplication pass -/

theorem mem_getD_innerFold (env : PyEnv) (cls x b : Nat) :
    ∀ (bases : List Nat) (ch : List (Nat × List Nat)),
      x ∈ getD (bases.foldl
          (fun ch base => if cls ∈ getD ch base then ch else setdefaultAppend ch base cls) ch) b ↔
        x ∈ getD ch b ∨ (x = cls ∧ b ∈ bases) := by
  intro bases
  induction bases with
  | nil => simp
  | cons base rest ih =>
    intro ch
    rw [List.foldl_cons, ih]
    by_cases hmem : cls ∈ getD ch base
    · rw [if_pos hmem]
      constructor
      · rintro (h | ⟨hx, hb⟩)
        · exact Or.inl h
        · exact Or.inr ⟨hx, List.mem_cons_of_mem _ hb⟩
      · rintro (h | ⟨hx, hb⟩)
        · exact Or.inl h
        · rcases List.mem_cons.mp hb with hbb | hbb
          · subst hx; subst hbb; exact Or.inl hmem
          · exact Or.inr ⟨hx, hbb⟩
    · rw [if_neg hmem, getD_setdefaultAppend]
      by_cases hb : base = b
      · rw [if_pos hb]
        constructor
        · intro h
          rcases h with h | ⟨hx, hr⟩
          · rcases List.mem_append.mp h with h | h
            · exact Or.inl h
            · exact Or.inr ⟨List.mem_singleton.mp h, hb ▸ List.mem_cons_self _ _⟩
          · exact Or.inr ⟨hx, List.mem_cons_of_mem _ hr⟩
        · rintro (h | ⟨hx, hr⟩)
          · exact Or.inl (List.mem_append.mpr (Or.inl h))
          · rcases List.mem_cons.mp hr with hbb | hbb
            · exact Or.inl (List.mem_append.mpr (Or.inr (List.mem_singleton.mpr hx)))
            · exact Or.inr ⟨hx, hbb⟩
      · rw [if_neg hb]
        constructor
        · rintro (h | ⟨hx, hr⟩)
          · exact Or.inl h
          · exact Or.inr ⟨hx, List.mem_cons_of_mem _ hr⟩
        · rintro (h | ⟨hx, hr⟩)
          · exact Or.inl h
          · rcases List.mem_cons.mp hr with hbb | hbb
            · exact absurd hbb.symm hb
            · exact Or.inr ⟨hx, hbb⟩

theorem nodup_getD_innerFold (env : PyEnv) (cls b : Nat) :
    ∀ (bases : List Nat) (ch : List (Nat × List Nat)),
      (∀ k, (getD ch k).Nodup) →
      (getD (bases.foldl
          (fun ch base => if cls ∈ getD ch base then ch else setdefaultAppend ch base cls) ch) b).Nodup := by
  intro bases
  induction bases with
  | nil => exact fun ch h => h b
  | cons base rest ih =>
    intro ch h
    rw [List.foldl_cons]
    apply ih
    intro k
    by_cases hmem : cls ∈ getD ch base
    · rw [if_pos hmem]; exact h k
    · rw [if_neg hmem, getD_setdefaultAppend]
      by_cases hb : base = k
      · subst hb
        rw [if_pos rfl]
        simpa [List.nodup_append] using ⟨h base, hmem⟩
      · rw [if_neg hb]; exact h k

theorem mem_getD_duplicate (env : PyEnv) (x b : Nat) :
    ∀ (mps : List Nat) (ch : List (Nat × List Nat)) (nodes : List Nat),
      x ∈ getD (duplicate_multi_parents env ch mps nodes) b ↔
        x ∈ getD ch b ∨
          (x ∈ mps ∧ b ∈ (env.bases x).filter (fun q => decide (q ∈ nodes))) := by
  intro mps
  unfold duplicate_multi_parents
  induction mps with
  | nil => simp
  | cons cls rest ih =>
    intro ch nodes
    rw [List.foldl_cons, ih, mem_getD_innerFold env cls x b]
    constructor
    · rintro ((h | ⟨rfl, hb⟩) | ⟨hx, hb⟩)
      · exact Or.inl h
      · exact Or.inr ⟨List.mem_cons_self _ _, hb⟩
      · exact Or.inr ⟨List.mem_cons_of_mem _ hx, hb⟩
    · rintro (h | ⟨hx, hb⟩)
      · exact Or.inl (Or.inl h)
      · rcases List.mem_cons.mp hx with rfl | hx
        · exact Or.inl (Or.inr ⟨rfl, hb⟩)
        · exact Or.inr ⟨hx, hb⟩

theorem nodup_getD_duplicate (env : PyEnv) (b : Nat) :
    ∀ (mps : List Nat) (ch : List (Nat × List Nat)) (nodes : List Nat),
      (∀ k, (getD ch k).Nodup) →
      (getD (duplicate_multi_parents env ch mps nodes) b).Nodup := by
  intro mps
  unfold duplicate_multi_parents
  induction mps with
  | nil => exact fun ch nodes h => h b
  | cons cls rest ih =>
    intro ch nodes h
    rw [List.foldl_cons]
    apply ih
    intro k
    exact nodup_getD_innerFold env cls k _ ch h

/-! ### Multi-parent detection -/

theorem mem_detect_multi_parents {env : PyEnv} {nodes : List Nat} {x : Nat} :
    x ∈ detect_multi_parents env nodes ↔
      x ∈ nodes ∧ x ≠ env.excId ∧
        1 < ((env.bases x).filter (fun q => decide (q ∈ nodes))).length := by
  unfold detect_multi_parents
  rw [List.mem_filter]
  simp

theorem nodup_detect_multi_parents {env : PyEnv} {nodes : List Nat}
    (h : nodes.Nodup) : (detect_multi_parents env nodes).Nodup :=
  h.filter _

/-! ### Canonical form of the sorted children lists -/

theorem keyOrder_refl (env : PyEnv) (a : Nat) : keyOrder env a a :=
  lexLe_refl _

/-- With pairwise-distinct sort keys (on a carrier `S`), a sorted list is
determined by its members: sorting is canonical. -/
theorem sorted_key_unique (env : PyEnv) (S : List Nat)
    (hinj : ∀ a ∈ S, ∀ b ∈ S, sortKey env a = sortKey env b → a = b) :
    ∀ (l₁ l₂ : List Nat), l₁.Perm l₂ → l₁.Sorted (keyOrder env) →
      l₂.Sorted (keyOrder env) → (∀ x ∈ l₁, x ∈ S) → l₁ = l₂ := by
  intro l₁
  induction l₁ with
  | nil =>
    intro l₂ hp _ _ _
    exact (hp.symm.eq_nil).symm
  | cons a t ih =>
    intro l₂ hp hs1 hs2 hS
    cases l₂ with
    | nil => exact absurd hp.eq_nil (by simp)
    | cons b t₂ =>
      have haIn : a ∈ b :: t₂ := hp.mem_iff.mp (List.mem_cons_self a t)
      have hbIn : b ∈ a :: t := hp.mem_iff.mpr (List.mem_cons_self b t₂)
      have hab : a = b := by
        have h1 : keyOrder env a b := by
          rcases List.mem_cons.mp hbIn with heq | hb
          · rw [heq]; exact keyOrder_refl env a
          · exact List.rel_of_sorted_cons hs1 b hb
        have h2 : keyOrder env b a := by
          rcases List.mem_cons.mp haIn with heq | ha
          · rw [heq]; exact keyOrder_refl env b
          · exact List.rel_of_sorted_cons hs2 a ha
        exact hinj a (hS a (List.mem_cons_self a t)) b (hS b hbIn)
          (keyOrder_antisymm_key h1 h2)
      subst hab
      rw [ih t₂ hp.cons_inv (List.sorted_cons.mp hs1).2 (List.sorted_cons.mp hs2).2
        (fun x hx => hS x (List.mem_cons_of_mem _ hx))]

theorem insertionSort_canon (env : PyEnv) (S : List Nat)
    (hinj : ∀ a ∈ S, ∀ b ∈ S, sortKey env a = sortKey env b → a = b)
    (l₁ l₂ : List Nat) (hp : l₁.Perm l₂) (hS : ∀ x ∈ l₁, x ∈ S) :
    List.insertionSort (keyOrder env) l₁ = List.insertionSort (keyOrder env) l₂ := by
  apply sorted_key_unique env S hinj
  · exact (List.perm_insertionSort _ l₁).trans (hp.trans (List.perm_insertionSort _ l₂).symm)
  · exact List.sorted_insertionSort _ l₁
  · exact List.sorted_insertionSort _ l₂
  · intro x hx
    exact hS x ((List.perm_insertionSort _ l₁).mem_iff.mp hx)

/-! ### Renderer congruence -/

theorem childLine_congr (env : PyEnv) {mp₁ mp₂ : List Nat}
    (hmp : ∀ x, x ∈ mp₁ ↔ x ∈ mp₂) (indent branch : String) (child : Nat) :
    childLine env mp₁ indent branch child = childLine env mp₂ indent branch child := by
  unfold childLine
  by_cases h : child ∈ mp₁
  · rw [if_pos h, if_pos ((hmp child).mp h)]
  · rw [if_neg h, if_neg (fun hh => h ((hmp child).mpr hh))]

theorem renderList_nil (env : PyEnv) (cm : List (Nat × List Nat)) (mp : List Nat)
    (compact : Bool) (fuel : Nat) (prev : Option Nat) (indent : String) :
    renderList env cm mp compact fuel [] prev indent = [] := by
  cases fuel <;> rfl

/-- One-step unfolding of `renderList` on a non-empty sibling list. -/
theorem renderList_cons (env : PyEnv) (cm : List (Nat × List Nat)) (mp : List Nat)
    (compact : Bool) (fuel : Nat) (child : Nat) (rest : List Nat) (prev : Option Nat)
    (indent : String) :
    renderList env cm mp compact fuel (child :: rest) prev indent =
      (if compact then []
        else
          match prev with
          | none => []
          | some p => if getD cm p = [] then [] else [indent ++ "|"]) ++
      childLine env mp indent (if rest.isEmpty then "└── " else "├── ") child ::
      ((if getD cm child = [] then []
        else
          match fuel with
          | 0 => []
          | f + 1 =>
            renderList env cm mp compact f (getD cm child) none
              (indent ++ (if rest.isEmpty then "    " else "│   "))) ++
        renderList env cm mp compact fuel rest (some child) indent) := by
  cases fuel <;> rfl

theorem renderList_congr (env : PyEnv) {cm₁ cm₂ : List (Nat × List Nat)}
    {mp₁ mp₂ : List Nat} (compact : Bool)
    (hcm : ∀ b, getD cm₁ b = getD cm₂ b) (hmp : ∀ x, x ∈ mp₁ ↔ x ∈ mp₂) :
    ∀ (fuel : Nat) (kids : List Nat) (prev : Option Nat) (indent : String),
      renderList env cm₁ mp₁ compact fuel kids prev indent =
        renderList env cm₂ mp₂ compact fuel kids prev indent := by
  intro fuel
  induction fuel using Nat.strong_induction_on with
  | _ fuel ihf =>
    intro kids
    induction kids with
    | nil => intro prev indent; rw [renderList_nil, renderList_nil]
    | cons child rest ihk =>
      intro prev indent
      rw [renderList_cons, renderList_cons]
      congr 1
      · cases compact with
        | true => rfl
        | false =>
          cases prev with
          | none => rfl
          | some p => simp [hcm p]
      congr 1
      · exact childLine_congr env hmp _ _ _
      congr 1
      · rw [hcm child]
        by_cases hc : getD cm₂ child = []
        · rw [if_pos hc, if_pos hc]
        · rw [if_neg hc, if_neg hc]
          cases fuel with
          | zero => rfl
          | succ f => exact ihf f (Nat.lt_succ_self f) _ _ _
      · exact ihk _ _

theorem renderRoot_congr (env : PyEnv) {cm₁ cm₂ : List (Nat × List Nat)}
    {mp₁ mp₂ : List Nat} (compact : Bool)
    (hcm : ∀ b, getD cm₁ b = getD cm₂ b) (hmp : ∀ x, x ∈ mp₁ ↔ x ∈ mp₂)
    (fuel : Nat) : ∀ kids : List Nat,
      renderRoot env cm₁ mp₁ compact fuel kids = renderRoot env cm₂ mp₂ compact fuel kids := by
  intro kids
  induction kids with
  | nil => rfl
  | cons child rest ih =>
    simp only [renderRoot, print_subtree]
    rw [childLine_congr env hmp, hcm child,
      renderList_congr env compact hcm hmp, ih]

theorem print_tree_congr (env : PyEnv) (root : Nat) {cm₁ cm₂ : List (Nat × List Nat)}
    {mp₁ mp₂ : List Nat} (compact : Bool)
    (hcm : ∀ b, getD cm₁ b = getD cm₂ b) (hmp : ∀ x, x ∈ mp₁ ↔ x ∈ mp₂)
    (fuel : Nat) :
    print_tree env root cm₁ mp₁ compact fuel = print_tree env root cm₂ mp₂ compact fuel := by
  unfold print_tree
  rw [hcm root, renderRoot_congr env compact hcm hmp]

/-! ### Order independence of the pipeline -/

/-- Pairwise injectivity of the case-folded display names on a carrier. -/
def KeyInj (env : PyEnv) (S : List Nat) : Prop :=
  ∀ a ∈ S, ∀ b ∈ S, sortKey env a = sortKey env b → a = b

theorem gather_mem_congr (env : PyEnv) {l₁ l₂ : List Nat} (hp : l₁.Perm l₂) (x : Nat) :
    x ∈ gather_nodes env l₁ ↔ x ∈ gather_nodes env l₂ := by
  rw [mem_gather_nodes, mem_gather_nodes]
  constructor
  · rintro (h | ⟨c, hc, hx⟩)
    · exact Or.inl h
    · exact Or.inr ⟨c, hp.mem_iff.mp hc, hx⟩
  · rintro (h | ⟨c, hc, hx⟩)
    · exact Or.inl h
    · exact Or.inr ⟨c, hp.mem_iff.mpr hc, hx⟩

theorem gather_perm (env : PyEnv) {l₁ l₂ : List Nat} (hp : l₁.Perm l₂) :
    (gather_nodes env l₁).Perm (gather_nodes env l₂) :=
  (List.perm_ext_iff_of_nodup (nodup_gather_nodes env l₁) (nodup_gather_nodes env l₂)).mpr
    (gather_mem_congr env hp)

theorem findParent_congr (env : PyEnv) {n₁ n₂ : List Nat}
    (hmem : ∀ x, x ∈ n₁ ↔ x ∈ n₂) (c : Nat) :
    findParent env n₁ c = findParent env n₂ c := by
  unfold findParent
  have : (fun anc => decide (anc ∈ n₁)) = (fun anc => decide (anc ∈ n₂)) :=
    funext fun x => decide_eq_decide.mpr (hmem x)
  rw [this]

theorem pmEntry_congr (env : PyEnv) {n₁ n₂ : List Nat}
    (hmem : ∀ x, x ∈ n₁ ↔ x ∈ n₂) (root : Nat) :
    pmEntry env n₁ root = pmEntry env n₂ root := by
  funext c
  unfold pmEntry
  rw [findParent_congr env hmem c]

theorem parent_map_perm (env : PyEnv) {l₁ l₂ : List Nat} (hp : l₁.Perm l₂) (root : Nat) :
    (build_parent_map env (gather_nodes env l₁) root).Perm
      (build_parent_map env (gather_nodes env l₂) root) := by
  rw [build_parent_map_eq, build_parent_map_eq,
    pmEntry_congr env (gather_mem_congr env hp) root]
  exact (gather_perm env hp).filterMap _

theorem mem_childrenNoDup_nodes {env : PyEnv} {l : List Nat} {x b : Nat}
    (h : x ∈ getD (childrenNoDup env l) b) : x ∈ gather_nodes env l :=
  (mem_build_parent_map.mp (mem_childrenNoDup.mp h)).1

theorem childrenNoDup_congr (env : PyEnv) {l₁ l₂ : List Nat} (hp : l₁.Perm l₂)
    (hinj : KeyInj env (gather_nodes env l₁)) (b : Nat) :
    getD (childrenNoDup env l₁) b = getD (childrenNoDup env l₂) b := by
  unfold childrenNoDup
  rw [getD_sort_children, getD_sort_children]
  apply insertionSort_canon env (gather_nodes env l₁) hinj
  · rw [getD_invert, getD_invert]
    exact ((parent_map_perm env hp env.excId).filter _).map _
  · intro x hx
    rw [getD_invert] at hx
    exact (mem_build_parent_map.mp (mem_map_fst_filter_snd.mp hx)).1

theorem basesFilter_congr (env : PyEnv) {n₁ n₂ : List Nat}
    (hmem : ∀ x, x ∈ n₁ ↔ x ∈ n₂) (x : Nat) :
    (env.bases x).filter (fun q => decide (q ∈ n₁)) =
      (env.bases x).filter (fun q => decide (q ∈ n₂)) := by
  congr 1
  funext q
  exact decide_eq_decide.mpr (hmem q)

theorem detect_mem_congr (env : PyEnv) {l₁ l₂ : List Nat} (hp : l₁.Perm l₂) (x : Nat) :
    x ∈ detect_multi_parents env (gather_nodes env l₁) ↔
      x ∈ detect_multi_parents env (gather_nodes env l₂) := by
  rw [mem_detect_multi_parents, mem_detect_multi_parents,
    basesFilter_congr env (gather_mem_congr env hp) x]
  constructor
  · rintro ⟨h1, h2, h3⟩
    exact ⟨(gather_mem_congr env hp x).mp h1, h2, h3⟩
  · rintro ⟨h1, h2, h3⟩
    exact ⟨(gather_mem_congr env hp x).mpr h1, h2, h3⟩

theorem childrenDup_congr (env : PyEnv) {l₁ l₂ : List Nat} (hp : l₁.Perm l₂)
    (hinj : KeyInj env (gather_nodes env l₁)) (b : Nat) :
    getD (childrenDup env l₁) b = getD (childrenDup env l₂) b := by
  unfold childrenDup
  rw [getD_sort_children, getD_sort_children]
  apply insertionSort_canon env (gather_nodes env l₁) hinj
  · apply (List.perm_ext_iff_of_nodup ?_ ?_).mpr
    · intro x
      rw [mem_getD_duplicate, mem_getD_duplicate,
        childrenNoDup_congr env hp hinj b,
        basesFilter_congr env (gather_mem_congr env hp) x]
      constructor
      · rintro (h | ⟨h1, h2⟩)
        · exact Or.inl h
        · exact Or.inr ⟨(detect_mem_congr env hp x).mp h1, h2⟩
      · rintro (h | ⟨h1, h2⟩)
        · exact Or.inl h
        · exact Or.inr ⟨(detect_mem_congr env hp x).mpr h1, h2⟩
    · exact nodup_getD_duplicate env b _ _ _ (fun k => nodup_childrenNoDup)
    · exact nodup_getD_duplicate env b _ _ _ (fun k => nodup_childrenNoDup)
  · intro x hx
    rcases (mem_getD_duplicate env x b _ _ _).mp hx with h | ⟨h1, _⟩
    · exact mem_childrenNoDup_nodes h
    · exact (mem_detect_multi_parents.mp h1).1

theorem runProgram_perm (env : PyEnv) {l₁ l₂ : List Nat} (hp : l₁.Perm l₂)
    (hinj : KeyInj env (gather_nodes env l₁)) (ap cp : Bool) (fuel : Nat) :
    runProgram env l₁ ap cp fuel = runProgram env l₂ ap cp fuel := by
  unfold runProgram
  rw [build_eq, build_eq]
  cases ap with
  | false =>
    exact print_tree_congr env env.excId cp (childrenNoDup_congr env hp hinj)
      (detect_mem_congr env hp) fuel
  | true =>
    exact print_tree_congr env env.excId cp (childrenDup_congr env hp hinj)
      (detect_mem_congr env hp) fuel

/-! ### Well-formed method resolution orders -/

/-- Facts CPython guarantees about `__mro__` and `__bases__`: a class heads its
own MRO, the MRO is duplicate-free, MRO membership is transitively closed and
antisymmetric, and every direct base occurs in the MRO (and differs from the
class). -/
structure MroWF (env : PyEnv) : Prop where
  headSelf : ∀ c, (env.mro c).head? = some c
  nodup : ∀ c, (env.mro c).Nodup
  closed : ∀ c p, p ∈ env.mro c → ∀ x ∈ env.mro p, x ∈ env.mro c
  antisymm : ∀ c p, p ∈ env.mro c → c ∈ env.mro p → c = p
  basesIn : ∀ c b, b ∈ env.bases c → b ∈ env.mro c ∧ b ≠ c

theorem head_eq_cons {l : List Nat} {c : Nat} (h : l.head? = some c) :
    ∃ t, l = c :: t := by
  cases l with
  | nil => simp at h
  | cons a t =>
    simp only [List.head?_cons, Option.some.injEq] at h
    exact ⟨t, by rw [h]⟩

theorem mro_length_lt {env : PyEnv} (wf : MroWF env) {c p : Nat}
    (hp : p ∈ (env.mro c).tail) : (env.mro p).length < (env.mro c).length := by
  obtain ⟨t, ht⟩ := head_eq_cons (wf.headSelf c)
  have hpt : p ∈ t := by rw [ht] at hp; simpa using hp
  have hpm : p ∈ env.mro c := by rw [ht]; exact List.mem_cons_of_mem _ hpt
  have hne : p ≠ c := by
    intro h
    have := wf.nodup c
    rw [ht] at this
    exact (List.nodup_cons.mp this).1 (h ▸ hpt)
  have hsub : ∀ x ∈ env.mro p, x ∈ env.mro c := wf.closed c p hpm
  have hcnot : c ∉ env.mro p := fun hc => hne (wf.antisymm c p hpm hc).symm
  have hfin : (env.mro p).toFinset ⊂ (env.mro c).toFinset := by
    constructor
    · intro x hx
      rw [List.mem_toFinset] at hx ⊢
      exact hsub x hx
    · intro hcon
      have : c ∈ (env.mro p).toFinset := hcon (by
        rw [List.mem_toFinset, ht]; exact List.mem_cons_self _ _)
      rw [List.mem_toFinset] at this
      exact hcnot this
  have hcard := Finset.card_lt_card hfin
  rwa [List.toFinset_card_of_nodup (wf.nodup p),
    List.toFinset_card_of_nodup (wf.nodup c)] at hcard

theorem exists_root_child (env : PyEnv) (wf : MroWF env) {l : List Nat} :
    ∀ (n : Nat) (c : Nat), (env.mro c).length ≤ n → c ∈ gather_nodes env l →
      c ≠ env.excId →
      ∃ d, d ∈ gather_nodes env l ∧ d ≠ env.excId ∧
        findParent env (gather_nodes env l) d = some env.excId := by
  intro n
  induction n with
  | zero =>
    intro c hlen hc hne
    obtain ⟨t, ht⟩ := head_eq_cons (wf.headSelf c)
    rw [ht] at hlen
    simp at hlen
  | succ n ih =>
    intro c hlen hc hne
    obtain ⟨p, hp⟩ := findParent_isSome (wf.headSelf c) hc hne
    obtain ⟨hpN, hpT⟩ := findParent_mem hp
    by_cases hpe : p = env.excId
    · exact ⟨c, hc, hne, hpe ▸ hp⟩
    · have hlt := mro_length_lt wf hpT
      exact ih p (by omega) hpN hpe

/-- A class other than `Exception` and `object` with `Exception` in its MRO is
itself gathered. -/
theorem self_mem_gather {env : PyEnv} (wf : MroWF env) {l : List Nat} {c : Nat}
    (hc : c ∈ l) (hco : c ≠ env.objectId)
    (hsub : issubclass env c env.excId = true) : c ∈ gather_nodes env l := by
  rw [mem_gather_nodes]
  right
  refine ⟨c, hc, ?_⟩
  obtain ⟨t, ht⟩ := head_eq_cons (wf.headSelf c)
  unfold chainAdds
  rw [ht, List.takeWhile_cons]
  simp only [hco, decide_not, decide_eq_true_eq]
  rw [if_pos (by simpa using hco)]
  rw [List.filter_cons, if_pos (by simpa using hsub)]
  exact List.mem_cons_self _ _

theorem build_children (env : PyEnv) (l : List Nat) (ap : Bool) :
    (build_inheritance_tree env l ap).2.1 =
      if ap then childrenDup env l else childrenNoDup env l := by
  rw [build_eq]

theorem build_mps (env : PyEnv) (l : List Nat) (ap : Bool) :
    (build_inheritance_tree env l ap).2.2 =
      detect_multi_parents env (gather_nodes env l) := by
  rw [build_eq]

theorem build_root (env : PyEnv) (l : List Nat) (ap : Bool) :
    (build_inheritance_tree env l ap).1 = env.excId := by
  rw [build_eq]

theorem mem_childrenDup_of_noDup {env : PyEnv} {l : List Nat} {x b : Nat}
    (h : x ∈ getD (childrenNoDup env l) b) : x ∈ getD (childrenDup env l) b := by
  unfold childrenDup
  rw [getD_sort_children, (List.perm_insertionSort (keyOrder env) _).mem_iff]
  exact (mem_getD_duplicate env x b _ _ _).mpr (Or.inl h)

theorem root_is_key (env : PyEnv) (wf : MroWF env) {l : List Nat} {c : Nat}
    (hc : c ∈ l) (hcne : c ≠ env.excId) (hco : c ≠ env.objectId)
    (hsub : issubclass env c env.excId = true) (ap : Bool) :
    (dictGet (build_inheritance_tree env l ap).2.1 env.excId).isSome := by
  have hcg : c ∈ gather_nodes env l := self_mem_gather wf hc hco hsub
  obtain ⟨d, hdg, hdne, hdp⟩ :=
    exists_root_child env wf (env.mro c).length c le_rfl hcg hcne
  have hpm : (d, env.excId) ∈ build_parent_map env (gather_nodes env l) env.excId :=
    mem_build_parent_map.mpr ⟨hdg, hdne, hdp⟩
  have hmem0 : d ∈ getD (childrenNoDup env l) env.excId := mem_childrenNoDup.mpr hpm
  rw [build_children]
  cases ap with
  | false =>
    refine getD_ne_nil_isSome (fun hnil => ?_)
    have : d ∈ getD (childrenNoDup env l) env.excId := hmem0
    rw [show getD (if false then childrenDup env l else childrenNoDup env l) env.excId =
        getD (childrenNoDup env l) env.excId from rfl] at hnil
    rw [hnil] at this
    simp at this
  | true =>
    refine getD_ne_nil_isSome (fun hnil => ?_)
    have hdm : d ∈ getD (childrenDup env l) env.excId := mem_childrenDup_of_noDup hmem0
    rw [show getD (if true then childrenDup env l else childrenNoDup env l) env.excId =
        getD (childrenDup env l) env.excId from rfl] at hnil
    rw [hnil] at hdm
    simp at hdm

/-! ### First-ancestor characterization of findParent -/

theorem findParent_first {env : PyEnv} {nodes : List Nat} {cls p : Nat}
    (h : findParent env nodes cls = some p) :
    p ∈ nodes ∧ ∃ pre post, (env.mro cls).tail = pre ++ p :: post ∧
      ∀ q ∈ pre, q ∉ nodes := by
  unfold findParent at h
  rw [List.find?_eq_some] at h
  obtain ⟨hpb, as, bs, heq, hall⟩ := h
  refine ⟨by simpa using hpb, as, bs, heq, fun q hq => ?_⟩
  have := hall q hq
  simpa using this

/-! ### Separator lines -/

/-- Characters an indentation prefix is made of. -/
def indentChar (c : Char) : Bool := c == ' ' || c == '│'

/-- Characters a separator line is made of. -/
def sepChar (c : Char) : Bool := c == ' ' || c == '│' || c == '|'

/-- A separator line: nothing but blanks, vertical continuations and the
ASCII bar.  Every line the renderer emits for a node contains a branch glyph
(`├` or `└`), so node lines are never separator lines. -/
def isSepLine (s : String) : Bool := s.data.all sepChar

/-- An indentation string: nothing but blanks and vertical continuations. -/
def goodIndent (s : String) : Prop := s.data.all indentChar = true

theorem goodIndent_append {s t : String} (hs : goodIndent s) (ht : goodIndent t) :
    goodIndent (s ++ t) := by
  unfold goodIndent at *
  rw [String.data_append, List.all_append, hs, ht]
  rfl

theorem goodIndent_empty : goodIndent "" := rfl

theorem goodIndent_spaces : goodIndent "    " := by unfold goodIndent; decide

theorem goodIndent_vert : goodIndent "│   " := by unfold goodIndent; decide

theorem isSepLine_sep {indent : String} (h : goodIndent indent) :
    isSepLine (indent ++ "|") = true := by
  unfold isSepLine
  rw [String.data_append, List.all_append]
  unfold goodIndent at h
  have h1 : indent.data.all sepChar = true := by
    rw [List.all_eq_true] at h ⊢
    intro c hc
    have := h c hc
    unfold indentChar at this
    unfold sepChar
    rcases Bool.or_eq_true_iff.mp this with h' | h' <;> simp [h']
  rw [h1]
  decide

theorem isSepLine_bar : isSepLine "|" = true := by decide

theorem isSepLine_false_of_mem {s : String} {c : Char} (hc : c ∈ s.data)
    (hbad : sepChar c = false) : isSepLine s = false := by
  unfold isSepLine
  rw [Bool.eq_false_iff]
  intro hall
  rw [List.all_eq_true] at hall
  have := hall c hc
  rw [hbad] at this
  exact absurd this (by simp)

theorem childLine_not_sep (env : PyEnv) (mp : List Nat) (indent : String)
    (child : Nat) (last : Bool) :
    isSepLine (childLine env mp indent (if last then "└── " else "├── ") child) = false := by
  unfold childLine
  cases last with
  | true =>
    apply isSepLine_false_of_mem (c := '└')
    · rw [String.data_append, String.data_append, String.data_append]
      refine List.mem_append.mpr (Or.inl (List.mem_append.mpr (Or.inl ?_)))
      refine List.mem_append.mpr (Or.inr ?_)
      decide
    · decide
  | false =>
    apply isSepLine_false_of_mem (c := '├')
    · rw [String.data_append, String.data_append, String.data_append]
      refine List.mem_append.mpr (Or.inl (List.mem_append.mpr (Or.inl ?_)))
      refine List.mem_append.mpr (Or.inr ?_)
      decide
    · decide

theorem renderList_cons_false (env : PyEnv) (cm : List (Nat × List Nat)) (mp : List Nat)
    (fuel : Nat) (child : Nat) (rest : List Nat) (prev : Option Nat) (indent : String) :
    renderList env cm mp false fuel (child :: rest) prev indent =
      (match prev with
        | none => []
        | some p => if getD cm p = [] then [] else [indent ++ "|"]) ++
      childLine env mp indent (if rest.isEmpty then "└── " else "├── ") child ::
      ((if getD cm child = [] then []
        else
          match fuel with
          | 0 => []
          | f + 1 =>
            renderList env cm mp false f (getD cm child) none
              (indent ++ (if rest.isEmpty then "    " else "│   "))) ++
        renderList env cm mp false fuel rest (some child) indent) := by
  rw [renderList_cons]
  rfl

theorem renderList_cons_true (env : PyEnv) (cm : List (Nat × List Nat)) (mp : List Nat)
    (fuel : Nat) (child : Nat) (rest : List Nat) (prev : Option Nat) (indent : String) :
    renderList env cm mp true fuel (child :: rest) prev indent =
      childLine env mp indent (if rest.isEmpty then "└── " else "├── ") child ::
      ((if getD cm child = [] then []
        else
          match fuel with
          | 0 => []
          | f + 1 =>
            renderList env cm mp true f (getD cm child) none
              (indent ++ (if rest.isEmpty then "    " else "│   "))) ++
        renderList env cm mp true fuel rest (some child) indent) := by
  rw [renderList_cons]
  rfl

theorem renderList_strip (env : PyEnv) (cm : List (Nat × List Nat)) (mp : List Nat) :
    ∀ (fuel : Nat) (kids : List Nat) (prev : Option Nat) (indent : String),
      goodIndent indent →
      (renderList env cm mp false fuel kids prev indent).filter (fun s => !isSepLine s) =
        renderList env cm mp true fuel kids prev indent := by
  intro fuel
  induction fuel using Nat.strong_induction_on with
  | _ fuel ihf =>
    intro kids
    induction kids with
    | nil =>
      intro prev indent _
      rw [renderList_nil, renderList_nil]
      rfl
    | cons child rest ihk =>
      intro prev indent hgood
      rw [renderList_cons_false, renderList_cons_true, List.filter_append]
      have hsep : (match prev with
          | none => ([] : List String)
          | some p => if getD cm p = [] then [] else [indent ++ "|"]).filter
            (fun s => !isSepLine s) = [] := by
        cases prev with
        | none => rfl
        | some p =>
          show (if getD cm p = [] then ([] : List String)
              else [indent ++ "|"]).filter (fun s => !isSepLine s) = []
          by_cases hc : getD cm p = []
          · rw [if_pos hc]; rfl
          · rw [if_neg hc]
            simp [isSepLine_sep hgood]
      rw [hsep, List.nil_append, List.filter_cons]
      rw [childLine_not_sep env mp indent child rest.isEmpty]
      simp only [Bool.not_false, if_pos]
      congr 1
      rw [List.filter_append]
      congr 1
      · by_cases hc : getD cm child = []
        · rw [if_pos hc, if_pos hc]; rfl
        · rw [if_neg hc, if_neg hc]
          cases fuel with
          | zero => rfl
          | succ f =>
            exact ihf f (Nat.lt_succ_self f) (getD cm child) none _
              (goodIndent_append hgood
                (by cases hr : rest.isEmpty <;>
                  simp [hr, goodIndent_spaces, goodIndent_vert]))
      · exact ihk (some child) indent hgood

theorem renderList_compact_no_sep (env : PyEnv) (cm : List (Nat × List Nat)) (mp : List Nat) :
    ∀ (fuel : Nat) (kids : List Nat) (prev : Option Nat) (indent : String),
      ∀ s ∈ renderList env cm mp true fuel kids prev indent, isSepLine s = false := by
  intro fuel
  induction fuel using Nat.strong_induction_on with
  | _ fuel ihf =>
    intro kids
    induction kids with
    | nil =>
      intro prev indent s hs
      rw [renderList_nil] at hs
      simp at hs
    | cons child rest ihk =>
      intro prev indent s hs
      rw [renderList_cons_true] at hs
      rcases List.mem_cons.mp hs with rfl | hs
      · exact childLine_not_sep env mp indent child rest.isEmpty
      · rcases List.mem_append.mp hs with hs | hs
        · by_cases hc : getD cm child = []
          · rw [if_pos hc] at hs; simp at hs
          · rw [if_neg hc] at hs
            cases fuel with
            | zero => simp at hs
            | succ f => exact ihf f (Nat.lt_succ_self f) (getD cm child) none _ s hs
        · exact ihk (some child) indent s hs

theorem renderRoot_strip (env : PyEnv) (cm : List (Nat × List Nat)) (mp : List Nat)
    (fuel : Nat) : ∀ kids : List Nat,
    (renderRoot env cm mp false fuel kids).filter (fun s => !isSepLine s) =
      renderRoot env cm mp true fuel kids := by
  intro kids
  induction kids with
  | nil => rfl
  | cons child rest ih =>
    show (("|" :: childLine env mp "" (if rest.isEmpty then "└── " else "├── ") child ::
        (print_subtree env cm mp false fuel child
          (if rest.isEmpty then "    " else "│   ") ++
          renderRoot env cm mp false fuel rest)).filter (fun s => !isSepLine s)) =
      childLine env mp "" (if rest.isEmpty then "└── " else "├── ") child ::
        (print_subtree env cm mp true fuel child
          (if rest.isEmpty then "    " else "│   ") ++
          renderRoot env cm mp true fuel rest)
    rw [List.filter_cons, isSepLine_bar]
    simp only [Bool.not_true, Bool.false_eq_true, if_false]
    rw [List.filter_cons, childLine_not_sep env mp "" child rest.isEmpty]
    simp only [Bool.not_false, if_pos]
    have hgood : goodIndent (if rest.isEmpty then "    " else "│   ") := by
      cases hr : rest.isEmpty <;> simp [goodIndent_spaces, goodIndent_vert]
    congr 1
    unfold print_subtree
    rw [List.filter_append,
      renderList_strip env cm mp fuel (getD cm child) none
        (if rest.isEmpty then "    " else "│   ") hgood, ih]

theorem renderRoot_compact_no_sep (env : PyEnv) (cm : List (Nat × List Nat))
    (mp : List Nat) (fuel : Nat) : ∀ (kids : List Nat),
    ∀ s ∈ renderRoot env cm mp true fuel kids, isSepLine s = false := by
  intro kids
  induction kids with
  | nil => intro s hs; simp [renderRoot] at hs
  | cons child rest ih =>
    intro s hs
    have hs' : s ∈ childLine env mp "" (if rest.isEmpty then "└── " else "├── ") child ::
        (print_subtree env cm mp true fuel child
          (if rest.isEmpty then "    " else "│   ") ++
          renderRoot env cm mp true fuel rest) := hs
    rcases List.mem_cons.mp hs' with rfl | hs2
    · exact childLine_not_sep env mp "" child rest.isEmpty
    · rcases List.mem_append.mp hs2 with hs3 | hs3
      · exact renderList_compact_no_sep env cm mp fuel (getD cm child) none _ s hs3
      · exact ih s hs3

theorem print_tree_strip (env : PyEnv) (root : Nat) (cm : List (Nat × List Nat))
    (mp : List Nat) (fuel : Nat)
    (hroot : isSepLine (get_display_name env root) = false) :
    (print_tree env root cm mp false fuel).filter (fun s => !isSepLine s) =
      print_tree env root cm mp true fuel := by
  unfold print_tree
  rw [List.filter_cons, hroot]
  simp only [Bool.not_false, if_pos]
  rw [renderRoot_strip]

theorem print_tree_compact_no_sep (env : PyEnv) (root : Nat)
    (cm : List (Nat × List Nat)) (mp : List Nat) (fuel : Nat)
    (hroot : isSepLine (get_display_name env root) = false) :
    ∀ s ∈ print_tree env root cm mp true fuel, isSepLine s = false := by
  intro s hs
  unfold print_tree at hs
  rcases List.mem_cons.mp hs with rfl | hs
  · exact hroot
  · exact renderRoot_compact_no_sep env cm mp fuel _ s hs

theorem renderList_sep_rule (env : PyEnv) (cm : List (Nat × List Nat)) (mp : List Nat)
    (fuel : Nat) (child : Nat) (rest : List Nat) (p : Nat) (indent : String) :
    renderList env cm mp false fuel (child :: rest) (some p) indent =
      (if getD cm p = [] then [] else [indent ++ "|"]) ++
        renderList env cm mp false fuel (child :: rest) none indent := by
  by_cases hc : getD cm p = [] <;> simp [renderList_cons_false, hc]

theorem renderRoot_sep_rule (env : PyEnv) (cm : List (Nat × List Nat)) (mp : List Nat)
    (fuel : Nat) (child : Nat) (rest : List Nat) :
    renderRoot env cm mp false fuel (child :: rest) =
      "|" :: (childLine env mp "" (if rest.isEmpty then "└── " else "├── ") child ::
        (print_subtree env cm mp false fuel child
          (if rest.isEmpty then "    " else "│   ") ++
          renderRoot env cm mp false fuel rest)) := rfl

/-! ### Children are strict subclasses; the rendering recursion terminates -/

theorem mem_children_noDup_strict {env : PyEnv} {l : List Nat} {x b : Nat}
    (h : x ∈ getD (childrenNoDup env l) b) :
    x ∈ gather_nodes env l ∧ x ≠ env.excId ∧ b ∈ (env.mro x).tail := by
  obtain ⟨hxN, hxne, hf⟩ := mem_build_parent_map.mp (mem_childrenNoDup.mp h)
  exact ⟨hxN, hxne, (findParent_mem hf).2⟩

theorem mem_children_dup_strict {env : PyEnv} (wf : MroWF env) {l : List Nat} {x b : Nat}
    (h : x ∈ getD (childrenDup env l) b) :
    x ∈ gather_nodes env l ∧ x ≠ env.excId ∧ b ∈ (env.mro x).tail := by
  unfold childrenDup at h
  rw [getD_sort_children, (List.perm_insertionSort (keyOrder env) _).mem_iff] at h
  rcases (mem_getD_duplicate env x b _ _ _).mp h with h | ⟨hmp, hb⟩
  · exact mem_children_noDup_strict h
  · obtain ⟨hxN, hxne, _⟩ := mem_detect_multi_parents.mp hmp
    have hbb : b ∈ env.bases x := (List.mem_filter.mp hb).1
    obtain ⟨hbm, hbne⟩ := wf.basesIn x b hbb
    obtain ⟨t, ht⟩ := head_eq_cons (wf.headSelf x)
    refine ⟨hxN, hxne, ?_⟩
    rw [ht]
    rw [ht] at hbm
    rcases List.mem_cons.mp hbm with heq | hbt
    · exact absurd heq hbne
    · simpa using hbt

theorem mem_children_build_strict {env : PyEnv} (wf : MroWF env) {l : List Nat}
    {ap : Bool} {x b : Nat} (h : x ∈ getD (build_inheritance_tree env l ap).2.1 b) :
    x ∈ gather_nodes env l ∧ x ≠ env.excId ∧ b ∈ (env.mro x).tail := by
  rw [build_children] at h
  cases ap with
  | false => exact mem_children_noDup_strict h
  | true => exact mem_children_dup_strict wf h

theorem le_foldr_max : ∀ (xs : List Nat) (x : Nat), x ∈ xs → x ≤ xs.foldr max 0 := by
  intro xs
  induction xs with
  | nil => intro x hx; simp at hx
  | cons a t ih =>
    intro x hx
    rcases List.mem_cons.mp hx with rfl | hx
    · exact le_max_left _ _
    · exact le_trans (ih x hx) (le_max_right _ _)

/-- A fuel value past which the renderer's output no longer changes. -/
def mroBound (env : PyEnv) (l : List Nat) : Nat :=
  ((gather_nodes env l).map (fun c => (env.mro c).length)).foldr max 0 + 1

theorem mro_lt_bound {env : PyEnv} {l : List Nat} {x : Nat}
    (h : x ∈ gather_nodes env l) : (env.mro x).length < mroBound env l := by
  unfold mroBound
  have : (env.mro x).length ∈ (gather_nodes env l).map (fun c => (env.mro c).length) :=
    List.mem_map.mpr ⟨x, h, rfl⟩
  have := le_foldr_max _ _ this
  omega

theorem renderList_fuel_stable (env : PyEnv) (cm : List (Nat × List Nat)) (mp : List Nat)
    (compact : Bool) (N : List Nat) (B : Nat)
    (hBucket : ∀ b x, x ∈ getD cm b → x ∈ N)
    (hMono : ∀ b x, x ∈ getD cm b → (env.mro b).length < (env.mro x).length)
    (hBound : ∀ x ∈ N, (env.mro x).length < B) :
    ∀ (k : Nat) (kids : List Nat),
      (∀ x ∈ kids, x ∈ N ∧ B ≤ (env.mro x).length + k) →
      ∀ (f₁ f₂ : Nat), k ≤ f₁ → k ≤ f₂ → ∀ (prev : Option Nat) (indent : String),
        renderList env cm mp compact f₁ kids prev indent =
          renderList env cm mp compact f₂ kids prev indent := by
  intro k
  induction k using Nat.strong_induction_on with
  | _ k ihk =>
    intro kids
    induction kids with
    | nil =>
      intro _ f₁ f₂ _ _ prev indent
      rw [renderList_nil, renderList_nil]
    | cons child rest ihr =>
      intro hk f₁ f₂ hf₁ hf₂ prev indent
      rw [renderList_cons, renderList_cons]
      congr 2
      congr 1
      · by_cases hc : getD cm child = []
        · rw [if_pos hc, if_pos hc]
        · rw [if_neg hc, if_neg hc]
          obtain ⟨hcN, hck⟩ := hk child (List.mem_cons_self _ _)
          have hk1 : 1 ≤ k := by
            have := hBound child hcN
            omega
          cases f₁ with
          | zero => omega
          | succ g₁ =>
            cases f₂ with
            | zero => omega
            | succ g₂ =>
              show renderList env cm mp compact g₁ (getD cm child) none _ =
                renderList env cm mp compact g₂ (getD cm child) none _
              apply ihk (k - 1) (by omega)
              · intro y hy
                refine ⟨hBucket child y hy, ?_⟩
                have := hMono child y hy
                omega
              · omega
              · omega
      · exact ihr (fun x hx => hk x (List.mem_cons_of_mem _ hx)) f₁ f₂ hf₁ hf₂ _ _

theorem renderRoot_fuel_stable (env : PyEnv) (cm : List (Nat × List Nat)) (mp : List Nat)
    (compact : Bool) (N : List Nat) (B : Nat)
    (hBucket : ∀ b x, x ∈ getD cm b → x ∈ N)
    (hMono : ∀ b x, x ∈ getD cm b → (env.mro b).length < (env.mro x).length)
    (hBound : ∀ x ∈ N, (env.mro x).length < B)
    (f₁ f₂ : Nat) (hf₁ : B ≤ f₁) (hf₂ : B ≤ f₂) :
    ∀ kids : List Nat,
      renderRoot env cm mp compact f₁ kids = renderRoot env cm mp compact f₂ kids := by
  intro kids
  induction kids with
  | nil => rfl
  | cons child rest ih =>
    simp only [renderRoot, print_subtree]
    rw [ih,
      renderList_fuel_stable env cm mp compact N B hBucket hMono hBound B
        (getD cm child)
        (fun y hy => ⟨hBucket child y hy, by omega⟩) f₁ f₂ hf₁ hf₂ none _]

theorem print_tree_build_fuel_stable (env : PyEnv) (wf : MroWF env) (l : List Nat)
    (ap compact : Bool) (f₁ f₂ : Nat) (hf₁ : mroBound env l ≤ f₁)
    (hf₂ : mroBound env l ≤ f₂) :
    print_tree env (build_inheritance_tree env l ap).1 (build_inheritance_tree env l ap).2.1
        (build_inheritance_tree env l ap).2.2 compact f₁ =
      print_tree env (build_inheritance_tree env l ap).1 (build_inheritance_tree env l ap).2.1
        (build_inheritance_tree env l ap).2.2 compact f₂ := by
  unfold print_tree
  congr 1
  apply renderRoot_fuel_stable env _ _ compact (gather_nodes env l) (mroBound env l)
  · exact fun b x hx => (mem_children_build_strict wf hx).1
  · intro b x hx
    exact mro_length_lt wf (mem_children_build_strict wf hx).2.2
  · exact fun x hx => mro_lt_bound hx
  · exact hf₁
  · exact hf₂

/-! ### Concrete environments

`envA` mirrors a real CPython session: `0 = object`, `1 = BaseException`,
`2 = Exception`, `3 = ValueError`, and in a module `m`: `4 = m.E1(Exception)`,
`5 = m.E2(E1)`, `6 = m.M(object)` (not an exception), `7 = m.A(M, E1)`,
`8 = m.B(E1, ValueError)`.  All MROs are the C3-linearization CPython computes. -/
def envA : PyEnv where
  mro
    | 0 => [0]
    | 1 => [1, 0]
    | 2 => [2, 1, 0]
    | 3 => [3, 2, 1, 0]
    | 4 => [4, 2, 1, 0]
    | 5 => [5, 4, 2, 1, 0]
    | 6 => [6, 0]
    | 7 => [7, 6, 4, 2, 1, 0]
    | 8 => [8, 4, 3, 2, 1, 0]
    | c => [c]
  bases
    | 1 => [0]
    | 2 => [1]
    | 3 => [2]
    | 4 => [2]
    | 5 => [4]
    | 6 => [0]
    | 7 => [6, 4]
    | 8 => [4, 3]
    | _ => []
  module
    | 4 => "m" | 5 => "m" | 6 => "m" | 7 => "m" | 8 => "m"
    | _ => "builtins"
  name
    | 0 => "object" | 1 => "BaseException" | 2 => "Exception" | 3 => "ValueError"
    | 4 => "E1" | 5 => "E2" | 6 => "M" | 7 => "A" | 8 => "B"
    | _ => "X"
  objectId := 0
  excId := 2

/-- `envB`: two direct `Exception` subclasses in module `m` whose display
names differ only by case (`m.FOO` vs `m.foo`), so their sort keys collide. -/
def envB : PyEnv where
  mro
    | 0 => [0]
    | 1 => [1, 0]
    | 2 => [2, 1, 0]
    | 3 => [3, 2, 1, 0]
    | 4 => [4, 2, 1, 0]
    | c => [c]
  bases
    | 1 => [0] | 2 => [1] | 3 => [2] | 4 => [2]
    | _ => []
  module
    | 3 => "m" | 4 => "m"
    | _ => "builtins"
  name
    | 0 => "object" | 1 => "BaseException" | 2 => "Exception"
    | 3 => "FOO" | 4 => "foo"
    | _ => "X"
  objectId := 0
  excId := 1

/-- `envW`: a small well-formed hierarchy used to instantiate theorems:
`0 = object`, `1 = Exception`, `2 = m.A(Exception)`, `3 = m.B(Exception)`,
`4 = m.C(A, B)` (a multi-parent class). -/
def envW : PyEnv where
  mro
    | 0 => [0]
    | 1 => [1, 0]
    | 2 => [2, 1, 0]
    | 3 => [3, 1, 0]
    | 4 => [4, 2, 3, 1, 0]
    | c => [c]
  bases
    | 1 => [0] | 2 => [1] | 3 => [1] | 4 => [2, 3]
    | _ => []
  module
    | 2 => "m" | 3 => "m" | 4 => "m"
    | _ => "builtins"
  name
    | 0 => "object" | 1 => "Exception" | 2 => "A" | 3 => "B" | 4 => "C"
    | _ => "X"
  objectId := 0
  excId := 1

theorem envW_wf : MroWF envW := by
  constructor
  · intro c
    by_cases h : c < 5
    · interval_cases c <;> rfl
    · obtain ⟨n, rfl⟩ : ∃ n, c = n + 5 := ⟨c - 5, by omega⟩
      rfl
  · intro c
    by_cases h : c < 5
    · interval_cases c <;> decide
    · obtain ⟨n, rfl⟩ : ∃ n, c = n + 5 := ⟨c - 5, by omega⟩
      show ([n + 5] : List Nat).Nodup
      simp
  · intro c
    by_cases h : c < 5
    · interval_cases c <;> decide
    · obtain ⟨n, rfl⟩ : ∃ n, c = n + 5 := ⟨c - 5, by omega⟩
      intro p hp x hx
      have hred : envW.mro (n + 5) = [n + 5] := rfl
      rw [hred] at hp ⊢
      have hp' : p = n + 5 := by simpa using hp
      subst hp'
      rwa [hred] at hx
  · intro c
    by_cases h : c < 5
    · interval_cases c <;> decide
    · obtain ⟨n, rfl⟩ : ∃ n, c = n + 5 := ⟨c - 5, by omega⟩
      intro p hp _
      have hred : envW.mro (n + 5) = [n + 5] := rfl
      rw [hred] at hp
      have hp' : p = n + 5 := by simpa using hp
      exact hp'.symm
  · intro c
    by_cases h : c < 5
    · interval_cases c <;> decide
    · obtain ⟨n, rfl⟩ : ∃ n, c = n + 5 := ⟨c - 5, by omega⟩
      intro b hb
      have hred : envW.bases (n + 5) = [] := rfl
      rw [hred] at hb
      simp at hb

/-! ### Claim theorems -/

/-- C2 counterexample: the claim says the ancestor walk stops at the first
non-base-error ancestor, so nothing after it is added.  In `envA`, class
`7 = m.A(M, E1)` has MRO `[A, M, E1, Exception, BaseException, object]`: the
non-exception mixin `6 = m.M` precedes `4 = m.E1` in the chain, `M` is not an
`Exception` subtype (and is not `object`), yet `E1` is still added to the
gathered NodeSet — the code only `break`s at `object` and `continue`s past
other non-subtypes. -/
theorem gather_continues_past_non_subtype :
    envA.mro 7 = [7, 6, 4, 2, 1, 0] ∧
    issubclass envA 6 envA.excId = false ∧ 6 ≠ envA.objectId ∧
    issubclass envA 4 envA.excId = true ∧
    4 ∈ gather_nodes envA [7] := by decide

/-- C2 (amended): the chain walk of `_gather_nodes` terminates only at
`object`; an ancestor that is not an `Exception` subtype (and is not `object`)
is merely skipped and the walk continues, so membership in NodeSet is: root,
plus every `Exception`-subtype ancestor occurring in the chain before the
first occurrence of `object`. -/
theorem gather_walk_semantics (env : PyEnv) (l : List Nat) (x : Nat) :
    x ∈ gather_nodes env l ↔
      x = env.excId ∨
        ∃ c ∈ l, x ∈ ((env.mro c).takeWhile
            (fun a => decide (a ≠ env.objectId))).filter
          (fun a => issubclass env a env.excId) := by
  rw [mem_gather_nodes]
  unfold chainAdds
  exact Iff.rfl

/-- C8: with the import effect made explicit, `main` exits with code 10 (after
a stderr message, printing no tree) when the root module fails to import, with
code 1 (after a stderr message) when discovery returns no exception classes,
and with code 0 (and no stderr output) on success. -/
theorem exit_code_contract (env : PyEnv) (arg err : String) (ap cp : Bool) (fuel : Nat) :
    ((mainRun env arg none err ap cp fuel).exitCode = 10 ∧
      (mainRun env arg none err ap cp fuel).stderrLines ≠ [] ∧
      (mainRun env arg none err ap cp fuel).stdout = []) ∧
    ((mainRun env arg (some []) err ap cp fuel).exitCode = 1 ∧
      (mainRun env arg (some []) err ap cp fuel).stderrLines ≠ [] ∧
      (mainRun env arg (some []) err ap cp fuel).stdout = []) ∧
    (∀ excs : List Nat, excs ≠ [] →
      (mainRun env arg (some excs) err ap cp fuel).exitCode = 0 ∧
      (mainRun env arg (some excs) err ap cp fuel).stderrLines = []) := by
  refine ⟨⟨rfl, by simp [mainRun], rfl⟩, ⟨?_, ?_, ?_⟩, ?_⟩
  · rfl
  · simp [mainRun]
  · rfl
  · intro excs h
    have hred : mainRun env arg (some excs) err ap cp fuel =
        if excs = [] then
          { exitCode := 1,
            stderrLines := ["No Exception subclasses found in '" ++ arg ++ "'."],
            stdout := [] }
        else
          { exitCode := 0, stderrLines := [],
            stdout := runProgram env excs ap cp fuel } := rfl
    rw [hred, if_neg h]
    exact ⟨rfl, rfl⟩

/-- C8 witness: a successful run on a concrete environment exits 0. -/
theorem exit_code_contract_app :
    ([2] : List Nat) ≠ [] ∧
    (mainRun envW "m" (some [2]) "boom" false false 5).exitCode = 0 :=
  ⟨by decide, ((exit_code_contract envW "m" "boom" false false 5).2.2 [2] (by decide)).1⟩

/-- C9: the display name is the bare class name for `builtins` classes and the
module-qualified dotted name otherwise; it is both the rendered text of a node
line and (lower-cased) the key every children list is sorted by. -/
theorem display_name_contract (env : PyEnv) :
    (∀ c, get_display_name env c =
      if env.module c = "builtins" then env.name c
      else env.module c ++ "." ++ env.name c) ∧
    (∀ c, sortKey env c = (get_display_name env c).data.map Char.toLower) ∧
    (∀ m b, List.Sorted (keyOrder env) (getD (sort_children env m) b) ∧
      (getD (sort_children env m) b).Perm (getD m b)) ∧
    (∀ mp indent branch c, childLine env mp indent branch c =
      indent ++ branch ++ get_display_name env c ++ (if c ∈ mp then " *" else "")) := by
  refine ⟨fun c => rfl, fun c => rfl, fun m b => ?_, fun mp indent branch c => rfl⟩
  rw [getD_sort_children]
  exact ⟨List.sorted_insertionSort _ _, List.perm_insertionSort _ _⟩

/-- C1 counterexample: the input `[Exception]` is a non-empty descriptor set
(a module can define or re-export `Exception` itself), yet the children map
`build_inheritance_tree` returns has no entry for root at all — with either
duplication setting. -/
theorem root_absent_for_root_only_input :
    ([2] : List Nat) ≠ [] ∧
    dictGet (build_inheritance_tree envA [2] false).2.1 envA.excId = none ∧
    dictGet (build_inheritance_tree envA [2] true).2.1 envA.excId = none := by
  decide

/-- C1 (amended): whenever the input contains at least one proper `Exception`
subclass (other than `Exception` itself and other than `object`), the children
map contains root among its keys, with either duplication setting; the
guarantee fails only for inputs all of whose descriptors are root itself. -/
theorem root_always_key (env : PyEnv) (wf : MroWF env) (l : List Nat) (c : Nat)
    (hc : c ∈ l) (h1 : c ≠ env.excId) (h2 : c ≠ env.objectId)
    (h3 : issubclass env c env.excId = true) (ap : Bool) :
    (dictGet (build_inheritance_tree env l ap).2.1 env.excId).isSome :=
  root_is_key env wf hc h1 h2 h3 ap

/-- C1 witness: a concrete proper subclass input makes root a key. -/
theorem root_always_key_app :
    MroWF envW ∧ 2 ∈ ([2] : List Nat) ∧ 2 ≠ envW.excId ∧
    (dictGet (build_inheritance_tree envW [2] false).2.1 envW.excId).isSome :=
  ⟨envW_wf, by decide, by decide,
    root_always_key envW envW_wf [2] 2 (by decide) (by decide) (by decide) (by decide) false⟩

/-- C3: for every non-root node of the gathered NodeSet, the parent map holds
exactly one entry, and the recorded parent is the first member of the node's
ancestor chain (excluding the node itself) that lies in NodeSet; it exists
because root is in every gathered node's chain. -/
theorem parent_map_total_first (env : PyEnv) (l : List Nat)
    (hhead : ∀ c, (env.mro c).head? = some c) (c : Nat)
    (hc : c ∈ gather_nodes env l) (hne : c ≠ env.excId) :
    ∃ p, (c, p) ∈ build_parent_map env (gather_nodes env l) env.excId ∧
      p ∈ gather_nodes env l ∧
      (∃ pre post, (env.mro c).tail = pre ++ p :: post ∧
        ∀ q ∈ pre, q ∉ gather_nodes env l) ∧
      (∀ p', (c, p') ∈ build_parent_map env (gather_nodes env l) env.excId → p' = p) := by
  obtain ⟨p, hp⟩ := findParent_isSome (hhead c) hc hne
  obtain ⟨hpN, hpre⟩ := findParent_first hp
  refine ⟨p, mem_build_parent_map.mpr ⟨hc, hne, hp⟩, hpN, hpre, ?_⟩
  intro p' hp'
  have h2 := (mem_build_parent_map.mp hp').2.2
  rw [hp] at h2
  exact (Option.some.inj h2).symm

/-- C3 witness: node `2 = m.A` of `envW` on input `[4]`. -/
theorem parent_map_total_first_app :
    2 ∈ gather_nodes envW [4] ∧ 2 ≠ envW.excId ∧
    ∃ p, (2, p) ∈ build_parent_map envW (gather_nodes envW [4]) envW.excId ∧
      p ∈ gather_nodes envW [4] ∧
      (∃ pre post, (envW.mro 2).tail = pre ++ p :: post ∧
        ∀ q ∈ pre, q ∉ gather_nodes envW [4]) ∧
      (∀ p', (2, p') ∈ build_parent_map envW (gather_nodes envW [4]) envW.excId → p' = p) :=
  ⟨by decide, by decide,
    parent_map_total_first envW [4] envW_wf.headSelf 2 (by decide) (by decide)⟩

/-- C4: the multi-parent set is the same with or without duplication; with
duplication every multi-parent node appears in the children list of each of its
direct parents that is in NodeSet, no list holds a node twice; without
duplication a multi-parent node sits in exactly one children list — the one
keyed by its parent-map parent — and in both modes its rendered line carries
the `" *"` suffix. -/
theorem multi_parent_contract (env : PyEnv) (l : List Nat)
    (hhead : ∀ c, (env.mro c).head? = some c) :
    (build_inheritance_tree env l true).2.2 = (build_inheritance_tree env l false).2.2 ∧
    (∀ c ∈ (build_inheritance_tree env l true).2.2, ∀ b, b ∈ env.bases c →
      b ∈ gather_nodes env l → c ∈ getD (build_inheritance_tree env l true).2.1 b) ∧
    (∀ b, (getD (build_inheritance_tree env l true).2.1 b).Nodup) ∧
    (∀ c ∈ (build_inheritance_tree env l false).2.2, ∃ p,
      findParent env (gather_nodes env l) c = some p ∧
      ∀ b, (c ∈ getD (build_inheritance_tree env l false).2.1 b ↔ b = p)) ∧
    (∀ c ∈ (build_inheritance_tree env l true).2.2, ∀ indent branch,
      childLine env (build_inheritance_tree env l true).2.2 indent branch c =
        indent ++ branch ++ get_display_name env c ++ " *") := by
  refine ⟨by rw [build_mps, build_mps], ?_, ?_, ?_, ?_⟩
  · intro c hc b hb hbN
    show c ∈ getD (childrenDup env l) b
    unfold childrenDup
    rw [getD_sort_children, (List.perm_insertionSort (keyOrder env) _).mem_iff]
    apply (mem_getD_duplicate env c b _ _ _).mpr
    right
    rw [build_mps] at hc
    exact ⟨hc, List.mem_filter.mpr ⟨hb, by simpa using hbN⟩⟩
  · intro b
    show (getD (childrenDup env l) b).Nodup
    unfold childrenDup
    rw [getD_sort_children]
    exact (List.perm_insertionSort (keyOrder env) _).nodup_iff.mpr
      (nodup_getD_duplicate env b _ _ _ (fun k => nodup_childrenNoDup))
  · intro c hc
    rw [build_mps] at hc
    obtain ⟨hcN, hcne, _⟩ := mem_detect_multi_parents.mp hc
    obtain ⟨p, hp⟩ := findParent_isSome (hhead c) hcN hcne
    refine ⟨p, hp, fun b => ?_⟩
    show c ∈ getD (childrenNoDup env l) b ↔ b = p
    rw [mem_childrenNoDup, mem_build_parent_map]
    constructor
    · rintro ⟨_, _, hf⟩
      rw [hp] at hf
      exact (Option.some.inj hf).symm
    · rintro rfl
      exact ⟨hcN, hcne, hp⟩
  · intro c hc indent branch
    unfold childLine
    rw [if_pos hc]

/-- C4 witness: in `envW` with input `[4]`, the multi-parent node `4 = m.C`
is duplicated under its second direct parent `3 = m.B`. -/
theorem multi_parent_contract_app :
    4 ∈ (build_inheritance_tree envW [4] true).2.2 ∧
    3 ∈ envW.bases 4 ∧ 3 ∈ gather_nodes envW [4] ∧
    4 ∈ getD (build_inheritance_tree envW [4] true).2.1 3 :=
  ⟨by decide, by decide, by decide,
    (multi_parent_contract envW [4] envW_wf.headSelf).2.1 4 (by decide) 3 (by decide) (by decide)⟩

/-- C6: for every `build_inheritance_tree` output, deleting every separator
line from the non-compact rendering yields exactly the compact rendering —
connectors and indentation are identical between the two modes. -/
theorem compact_equivalence (env : PyEnv) (l : List Nat) (ap : Bool) (fuel : Nat)
    (hroot : isSepLine (get_display_name env env.excId) = false) :
    (print_tree env (build_inheritance_tree env l ap).1
        (build_inheritance_tree env l ap).2.1
        (build_inheritance_tree env l ap).2.2 false fuel).filter
      (fun s => !isSepLine s) =
      print_tree env (build_inheritance_tree env l ap).1
        (build_inheritance_tree env l ap).2.1
        (build_inheritance_tree env l ap).2.2 true fuel := by
  rw [build_root]
  exact print_tree_strip env env.excId _ _ fuel hroot

/-- C6 witness: concrete equality of the stripped non-compact and the compact
output on `envW`. -/
theorem compact_equivalence_app :
    isSepLine (get_display_name envW envW.excId) = false ∧
    (print_tree envW (build_inheritance_tree envW [4] true).1
        (build_inheritance_tree envW [4] true).2.1
        (build_inheritance_tree envW [4] true).2.2 false 6).filter
      (fun s => !isSepLine s) =
      print_tree envW (build_inheritance_tree envW [4] true).1
        (build_inheritance_tree envW [4] true).2.1
        (build_inheritance_tree envW [4] true).2.2 true 6 :=
  ⟨by decide, compact_equivalence envW [4] true 6 (by decide)⟩

/-- C7: in non-compact mode, before a sibling that is not first in its list a
single separator line `indent ++ "|"` (the ASCII bar at the current
indentation) is emitted exactly when the preceding sibling's children list is
non-empty; at the root level a `"|"` line precedes every direct child of root
unconditionally; in compact mode no separator line is emitted anywhere. -/
theorem separator_rule (env : PyEnv) (cm : List (Nat × List Nat)) (mp : List Nat) :
    (∀ (fuel : Nat) (child : Nat) (rest : List Nat) (p : Nat) (indent : String),
      renderList env cm mp false fuel (child :: rest) (some p) indent =
        (if getD cm p = [] then [] else [indent ++ "|"]) ++
          renderList env cm mp false fuel (child :: rest) none indent) ∧
    (∀ (fuel : Nat) (child : Nat) (rest : List Nat),
      renderRoot env cm mp false fuel (child :: rest) =
        "|" :: (childLine env mp "" (if rest.isEmpty then "└── " else "├── ") child ::
          (print_subtree env cm mp false fuel child
            (if rest.isEmpty then "    " else "│   ") ++
            renderRoot env cm mp false fuel rest))) ∧
    (∀ (fuel : Nat) (kids : List Nat) (prev : Option Nat) (indent : String),
      ∀ s ∈ renderList env cm mp true fuel kids prev indent, isSepLine s = false) ∧
    (∀ (root : Nat) (fuel : Nat), isSepLine (get_display_name env root) = false →
      ∀ s ∈ print_tree env root cm mp true fuel, isSepLine s = false) := by
  refine ⟨renderList_sep_rule env cm mp, renderRoot_sep_rule env cm mp, ?_, ?_⟩
  · exact renderList_compact_no_sep env cm mp
  · intro root fuel hroot
    exact print_tree_compact_no_sep env root cm mp fuel hroot

/-- C7 witness: the separator equation instantiated on a concrete tree, and
the no-separator guarantee applied to a concrete compact output line. -/
theorem separator_rule_app :
    (renderList envW (build_inheritance_tree envW [4] false).2.1
        (build_inheritance_tree envW [4] false).2.2 false 3 [2] (some 4) "" =
      (if getD (build_inheritance_tree envW [4] false).2.1 4 = [] then []
        else ["" ++ "|"]) ++
        renderList envW (build_inheritance_tree envW [4] false).2.1
          (build_inheritance_tree envW [4] false).2.2 false 3 [2] none "") ∧
    (isSepLine (get_display_name envW 1) = false ∧
      "Exception" ∈ print_tree envW 1 (build_inheritance_tree envW [4] false).2.1
        (build_inheritance_tree envW [4] false).2.2 true 3 ∧
      isSepLine "Exception" = false) :=
  ⟨(separator_rule envW (build_inheritance_tree envW [4] false).2.1
      (build_inheritance_tree envW [4] false).2.2).1 3 2 [] 4 "",
    by decide,
    by decide,
    (separator_rule envW (build_inheritance_tree envW [4] false).2.1
      (build_inheritance_tree envW [4] false).2.2).2.2.2 1 3 (by decide) "Exception"
      (by decide)⟩

/-- C10: in every children map `build_inheritance_tree` returns (with or
without duplication), each listed child is a strict subclass of the key it is
listed under, root never occurs in any children list, and the renderer's
output is unchanged by any fuel past `mroBound` — the recursion terminates. -/
theorem children_strict_subclass_and_termination (env : PyEnv) (wf : MroWF env)
    (l : List Nat) (ap : Bool) :
    (∀ b x, x ∈ getD (build_inheritance_tree env l ap).2.1 b →
      b ∈ env.mro x ∧ x ≠ b) ∧
    (∀ b, (build_inheritance_tree env l ap).1 ∉
      getD (build_inheritance_tree env l ap).2.1 b) ∧
    (∀ (compact : Bool) (f : Nat), mroBound env l ≤ f →
      print_tree env (build_inheritance_tree env l ap).1
          (build_inheritance_tree env l ap).2.1
          (build_inheritance_tree env l ap).2.2 compact f =
        print_tree env (build_inheritance_tree env l ap).1
          (build_inheritance_tree env l ap).2.1
          (build_inheritance_tree env l ap).2.2 compact (mroBound env l)) := by
  refine ⟨?_, ?_, ?_⟩
  · intro b x hx
    obtain ⟨hxN, hxne, htail⟩ := mem_children_build_strict wf hx
    obtain ⟨t, ht⟩ := head_eq_cons (wf.headSelf x)
    have hbt : b ∈ t := by rw [ht] at htail; simpa using htail
    constructor
    · rw [ht]; exact List.mem_cons_of_mem _ hbt
    · intro heq
      have hnd := wf.nodup x
      rw [ht] at hnd
      exact (List.nodup_cons.mp hnd).1 (heq ▸ hbt)
  · intro b hmem
    rw [build_root] at hmem
    exact (mem_children_build_strict wf hmem).2.1 rfl
  · intro compact f hf
    exact print_tree_build_fuel_stable env wf l ap compact f (mroBound env l) hf le_rfl

/-- C10 witness: strictness on a concrete edge, and fuel-stability at a
concrete fuel past the bound. -/
theorem children_strict_subclass_and_termination_app :
    MroWF envW ∧ (3 ∈ envW.mro 4 ∧ 4 ≠ 3) ∧
    mroBound envW [4] ≤ 9 ∧
    print_tree envW (build_inheritance_tree envW [4] true).1
        (build_inheritance_tree envW [4] true).2.1
        (build_inheritance_tree envW [4] true).2.2 false 9 =
      print_tree envW (build_inheritance_tree envW [4] true).1
        (build_inheritance_tree envW [4] true).2.1
        (build_inheritance_tree envW [4] true).2.2 false (mroBound envW [4]) :=
  ⟨envW_wf,
    (children_strict_subclass_and_termination envW envW_wf [4] true).1 3 4 (by decide),
    by decide,
    (children_strict_subclass_and_termination envW envW_wf [4] true).2.2 false 9 (by decide)⟩

/-- C5 counterexample: `envB` has two distinct classes `m.FOO` and `m.foo`
whose case-folded display names coincide, both direct subclasses of
`Exception`.  Python's sort is stable, so the tie is broken by set-iteration
order: the two insertion orders of the same descriptor set produce different
output. -/
theorem order_dependent_output_on_case_collision :
    ([3, 4] : List Nat).Perm [4, 3] ∧
    runProgram envB [3, 4] false false 5 ≠ runProgram envB [4, 3] false false 5 := by
  constructor
  · exact List.Perm.swap 4 3 []
  · decide

/-- C5 (amended): if no two gathered nodes share a case-folded display name
(`KeyInj`), the rendered output is byte-identical for any two iteration orders
of the same descriptor set, for every mode; children lists are sorted by the
case-insensitive display-name key.  When two distinct nodes' keys collide,
the stable sort breaks the tie by iteration order and the output can differ. -/
theorem output_order_independent (env : PyEnv) (l₁ l₂ : List Nat) (hp : l₁.Perm l₂)
    (hinj : KeyInj env (gather_nodes env l₁)) (ap cp : Bool) (fuel : Nat) :
    runProgram env l₁ ap cp fuel = runProgram env l₂ ap cp fuel ∧
    (∀ b, List.Sorted (keyOrder env) (getD (build_inheritance_tree env l₁ ap).2.1 b)) := by
  refine ⟨runProgram_perm env hp hinj ap cp fuel, ?_⟩
  intro b
  cases ap with
  | false =>
    show List.Sorted (keyOrder env) (getD (childrenNoDup env l₁) b)
    unfold childrenNoDup
    rw [getD_sort_children]
    exact List.sorted_insertionSort _ _
  | true =>
    show List.Sorted (keyOrder env) (getD (childrenDup env l₁) b)
    unfold childrenDup
    rw [getD_sort_children]
    exact List.sorted_insertionSort _ _

/-- C5 witness: two orders of a collision-free descriptor set render the same
bytes. -/
theorem output_order_independent_app :
    ([4, 2] : List Nat).Perm [2, 4] ∧ KeyInj envW (gather_nodes envW [4, 2]) ∧
    runProgram envW [4, 2] true false 8 = runProgram envW [2, 4] true false 8 :=
  ⟨List.Perm.swap 2 4 [], by unfold KeyInj; decide,
    (output_order_independent envW [4, 2] [2, 4] (List.Perm.swap 2 4 [])
      (by unfold KeyInj; decide) true false 8).1⟩
